import Mathlib

/-!
# LogMCP: log store, query service, time codec and tool facade

A shallow embedding of the Go sources

* `log-server/data/sqlite.go`   (`Database.GetLogs`, `Database.GetStats`, `NewDatabase`,
  `loadDemoData`),
* `log-server/utils/loader.go`  (`Log`, `RawMessage`, `LoadFile`, `Parse`),
* `log-server/service/server.go` (`Server.GetLogs`, `Server.ToEpoch`, `Server.ToReadable`),
* `mcp-server/cmd/main.go`      (`handleGetLogs`),

together with the parts of the SQLite engine and of the Go standard library
(`net/url`, `time`, `strconv`, `fmt`) that these functions call.

Go strings are byte strings; text that the code inspects byte by byte is
modelled as `List Char`, one character per byte.
-/

namespace LogMcp

deriving instance DecidableEq for Except

/-! ## Decimal digits -/

/-- Go `'0' <= c && c <= '9'`. -/
def isDigit (c : Char) : Bool := decide (48 ≤ c.toNat) && decide (c.toNat ≤ 57)

/-- Go `int(c - '0')` for a digit `c`. -/
def digitVal (c : Char) : Nat := c.toNat - 48

/-- Value of a run of decimal digits, most significant first. -/
def digitsVal (cs : List Char) : Nat := cs.foldl (fun a c => 10 * a + digitVal c) 0

/-- A non-empty run of decimal digits and its value. -/
def natLiteral? (cs : List Char) : Option Nat :=
  if cs ≠ [] ∧ cs.all isDigit = true then some (digitsVal cs) else none

/-- An integer literal: an optional sign followed by a non-empty run of decimal digits. -/
def intLiteral? : List Char → Option Int
  | '-' :: cs => (natLiteral? cs).map (fun n => -(n : Int))
  | '+' :: cs => (natLiteral? cs).map (fun n => (n : Int))
  | cs => (natLiteral? cs).map (fun n => (n : Int))

/-- Smallest `int64`. -/
def minInt64 : Int := -9223372036854775808

/-- Largest `int64`. -/
def maxInt64 : Int := 9223372036854775807

/-- Membership in the `int64` range. -/
def isInt64 (i : Int) : Prop := minInt64 ≤ i ∧ i ≤ maxInt64

instance (i : Int) : Decidable (isInt64 i) := by unfold isInt64; infer_instance

/-! ## The log store (`log-server/data/sqlite.go`) -/

/-- Go `LogEntry`: one row of the relation `logs(region TEXT, time INTEGER, message TEXT)`. -/
structure LogEntry where
  Region : String
  Time : Int
  Message : String
deriving DecidableEq, Repr

/-- The `time` field is an `int64`. -/
def LogEntry.wf (e : LogEntry) : Prop := isInt64 e.Time

instance (e : LogEntry) : Decidable e.wf := by unfold LogEntry.wf; infer_instance

/-- Go `Database`: the connection, seen as the rows of the `logs` table in storage order. -/
structure Database where
  conn : List LogEntry
deriving DecidableEq, Repr

/-- An SQLite REAL that was obtained from an integer literal: such a value is
either an integer-valued binary64 number or an infinity. -/
inductive SqlReal where
  | negInf
  | fin (v : Int)
  | posInf
deriving DecidableEq, Repr

/-- Storage classes of SQLite that occur in the queries of this program. -/
inductive SqlValue where
  | integer (i : Int)
  | real (r : SqlReal)
  | text (s : String)
deriving DecidableEq, Repr

/-- Position of the leading binary digit, by repeated halving (`fuel` bounds the
number of halvings). -/
def log2Fuel : Nat → Nat → Nat
  | 0, _ => 0
  | fuel + 1, n => if 2 ≤ n then log2Fuel fuel (n / 2) + 1 else 0

/-- Position of the leading binary digit of `n`: the largest `l` with `2 ^ l <= n`. -/
def floorLog2 (n : Nat) : Nat := log2Fuel n n

/-- Nearest binary64 value of a natural number (round half to even); `none` when
the result overflows to infinity, that is when it reaches `2 ^ 1024`. -/
def roundBinary64 (n : Nat) : Option Nat :=
  let l := floorLog2 n
  if l < 53 then some n
  else
    let k := l - 52
    let q := n / 2 ^ k
    let r := n % 2 ^ k
    let half := 2 ^ (k - 1)
    let q1 := if half < r ∨ (r = half ∧ q % 2 = 1) then q + 1 else q
    let v := q1 * 2 ^ k
    if 1024 ≤ floorLog2 v then none else some v

/-- REAL value of an integer literal that does not fit in 64 bits. -/
def SqlReal.ofInt (i : Int) : SqlReal :=
  if 0 ≤ i then
    match roundBinary64 i.toNat with
    | some v => .fin v
    | none => .posInf
  else
    match roundBinary64 (-i).toNat with
    | some v => .fin (-(v : Int))
    | none => .negInf

/-- SQLite NUMERIC affinity applied to a TEXT operand before a comparison with an
INTEGER column: a well-formed integer literal becomes an INTEGER when it fits
in 64 bits and a REAL otherwise; any other text stays TEXT.  Only integer
literals are recognised here: real literals (fraction, exponent) and
surrounding blanks are outside this embedding. -/
def applyNumericAffinity (s : String) : SqlValue :=
  match intLiteral? s.toList with
  | some i => if isInt64 i then .integer i else .real (SqlReal.ofInt i)
  | none => .text s

/-- SQLite `x <= y` for an INTEGER `x`: numeric comparison against INTEGER and
REAL, and every numeric value sorts before every TEXT value. -/
def intLe (x : Int) : SqlValue → Bool
  | .integer i => decide (x ≤ i)
  | .real .negInf => false
  | .real (.fin v) => decide (x ≤ v)
  | .real .posInf => true
  | .text _ => true

/-- SQLite `x >= y` for an INTEGER `x`. -/
def intGe (x : Int) : SqlValue → Bool
  | .integer i => decide (i ≤ x)
  | .real .negInf => true
  | .real (.fin v) => decide (v ≤ x)
  | .real .posInf => false
  | .text _ => false

/-- The `WHERE` clause of `selectLogsSQL`, `region = ? AND time BETWEEN ? AND ?`,
with the parameters bound as TEXT in the order `region, start, end`.
`region = ?` compares two TEXT values with the BINARY collation;
`time BETWEEN ? AND ?` is `time >= ? AND time <= ?`. -/
def selectLogsWhere (region start end_ : String) (row : LogEntry) : Bool :=
  decide (row.Region = region)
    && (intGe row.Time (applyNumericAffinity start)
      && intLe row.Time (applyNumericAffinity end_))

/-- Go `(*Database).GetLogs`: runs `selectLogsSQL` with `region, start, end` and
appends every row of the result to `logs`.  The rows are typed, so `rows.Scan`
succeeds on each of them; a fault of the engine itself is not modelled. -/
def Database.GetLogs (db : Database) (start end_ region : String) :
    Except String (List LogEntry) :=
  .ok (db.conn.foldl
    (fun logs row => if selectLogsWhere region start end_ row then logs ++ [row] else logs) [])

/-- Go `map[string]int`, as an association list with pairwise distinct keys. -/
abbrev StatsMap := List (String × Nat)

/-- Go `m[k]` with the comma-ok form. -/
def StatsMap.get? (m : StatsMap) (k : String) : Option Nat :=
  match m with
  | [] => none
  | (k1, v) :: rest => if k1 = k then some v else StatsMap.get? rest k

/-- Go `m[k] = v`. -/
def StatsMap.set (m : StatsMap) (k : String) (v : Nat) : StatsMap :=
  match m with
  | [] => [(k, v)]
  | (k1, v1) :: rest => if k1 = k then (k1, v) :: rest else (k1, v1) :: StatsMap.set rest k v

/-- One step of the aggregation `COUNT(*) ... GROUP BY region`: the row joins the
group of its region, or opens a new group. -/
def groupStep (groups : List (String × Nat)) (row : LogEntry) : List (String × Nat) :=
  match groups with
  | [] => [(row.Region, 1)]
  | (r, c) :: rest =>
    if r = row.Region then (r, c + 1) :: rest else (r, c) :: groupStep rest row

/-- Result rows of `statsSQL`, `SELECT region, COUNT(*) as count FROM logs GROUP BY region`. -/
def statsRows (rows : List LogEntry) : List (String × Nat) :=
  rows.foldl groupStep []

/-- Go `(*Database).GetStats`: runs `statsSQL` and stores each result row in the map. -/
def Database.GetStats (db : Database) : Except String StatsMap :=
  .ok ((statsRows db.conn).foldl (fun stats rc => StatsMap.set stats rc.1 rc.2) [])

/-- The store of the end-to-end example: one row `NA, 1000, "boot ok"`. -/
def exampleDb : Database := ⟨[⟨"NA", 1000, "boot ok"⟩]⟩

/-! ## The bootstrap loader (`log-server/utils/loader.go`, `loadDemoData`, `NewDatabase`) -/

/-- Go `RawMessage`. -/
structure RawMessage where
  Timestamp : Int
  Log : String
deriving DecidableEq, Repr

/-- Go `Log`. -/
structure Log where
  Raw : RawMessage
deriving DecidableEq, Repr

/-- What the process finds around it when it starts: the environment variables,
the file system, the JSON decoder, the order in which `range` walks a map, and
the faults of the storage engine. -/
structure World where
  /-- Go `os.Getenv`. -/
  getenv : String → String
  /-- Go `os.ReadFile`. -/
  readFile : String → Except String (List UInt8)
  /-- Go `json.Unmarshal(data, &logs)` for `logs []Log`. -/
  unmarshal : List UInt8 → Except String (List Log)
  /-- Order in which `for region, path := range regions` visits the entries. -/
  rangeOrder : List (String × String) → List (String × String)
  /-- Fault of `sql.Open`. -/
  openErr : Option String
  /-- Fault of `conn.Exec(createTableSQL)`. -/
  createErr : Option String
  /-- Fault of `conn.QueryRow(countLogsSQL).Scan(&count)`. -/
  countErr : Option String
  /-- Fault of `conn.Begin()` in the transaction of a region. -/
  beginErr : String → Option String
  /-- Fault of `tx.Prepare(insertLogSQL)` in the transaction of a region. -/
  prepareErr : String → Option String
  /-- Whether `stmt.Exec` fails for the record at this index of a region. -/
  execFails : String → Nat → Bool
  /-- Fault of `tx.Commit()` in the transaction of a region. -/
  commitErr : String → Option String

/-- Go `utils.LoadFile`. -/
def LoadFile (w : World) (path : String) : Except String (List UInt8) := w.readFile path

/-- Go `utils.Parse`. -/
def Parse (w : World) (data : List UInt8) : Except String (List Log) :=
  match w.unmarshal data with
  | .error err => .error err
  | .ok logs => .ok logs

/-- The `for _, log := range logs { stmt.Exec(region, log.Raw.Timestamp, log.Raw.Log) }`
loop of one transaction: the rows inserted, the error of `Exec` being dropped. -/
def execAll (w : World) (region : String) : Nat → List Log → List LogEntry
  | _, [] => []
  | i, log :: rest =>
    if w.execFails region i then execAll w region (i + 1) rest
    else ⟨region, log.Raw.Timestamp, log.Raw.Log⟩ :: execAll w region (i + 1) rest

/-- The body of `for region, path := range regions` in `loadDemoData`, run over
the entries in the order given. -/
def loadRegions (w : World) : List (String × String) → List LogEntry →
    Except String Unit × List LogEntry
  | [], conn => (.ok (), conn)
  | (region, path) :: rest, conn =>
    match LoadFile w path with
    | .error _ => loadRegions w rest conn
    | .ok data =>
      match Parse w data with
      | .error _ => loadRegions w rest conn
      | .ok logs =>
        match w.beginErr region with
        | some err => (.error err, conn)
        | none =>
          match w.prepareErr region with
          | some err => (.error err, conn)
          | none =>
            match w.commitErr region with
            | some err => (.error err, conn)
            | none => loadRegions w rest (conn ++ execAll w region 0 logs)

/-- The map `regions` of `loadDemoData`. -/
def regions (demoPath : String) : List (String × String) :=
  [("NA", demoPath ++ "/sample_logs_na.json"),
   ("EU", demoPath ++ "/sample_logs_eu.json"),
   ("AP", demoPath ++ "/sample_logs_ap.json")]

/-- The `demoPath` of `loadDemoData`: `os.Getenv("DEMO_LOGS_PATH")`, or `../demo_logs`. -/
def demoPath (w : World) : String :=
  if w.getenv "DEMO_LOGS_PATH" = "" then "../demo_logs" else w.getenv "DEMO_LOGS_PATH"

/-- Go `loadDemoData`: returns the error, if any, and the rows of the table afterwards. -/
def loadDemoData (w : World) (conn : List LogEntry) : Except String Unit × List LogEntry :=
  loadRegions w (w.rangeOrder (regions (demoPath w))) conn

/-- Outcome of reading and parsing the file of one region. -/
def readAndParse (w : World) (path : String) : Except String (List Log) :=
  match LoadFile w path with
  | .error err => .error err
  | .ok data => Parse w data

/-- The row that `insertLogSQL` stores for a parsed record of a region. -/
def entryOf (region : String) (log : Log) : LogEntry :=
  ⟨region, log.Raw.Timestamp, log.Raw.Log⟩

/-- Rows that a region contributes: one per parsed record, none when the file
could not be read or parsed. -/
def regionRows (w : World) (item : String × String) : List LogEntry :=
  match readAndParse w item.2 with
  | .ok logs => logs.map (entryOf item.1)
  | .error _ => []

/-- A world in which no file can be read and nothing fails in the engine. -/
def bareWorld : World where
  getenv := fun _ => ""
  readFile := fun _ => .error "no such file"
  unmarshal := fun _ => .error "unexpected end of JSON input"
  rangeOrder := fun l => l
  openErr := none
  createErr := none
  countErr := none
  beginErr := fun _ => none
  prepareErr := fun _ => none
  execFails := fun _ _ => false
  commitErr := fun _ => none

/-- A world whose NA file holds two records, whose EU file is missing and whose
AP file does not parse; `range` visits AP, NA, EU. -/
def demoWorld : World where
  getenv := fun _ => ""
  readFile := fun path =>
    if path = "../demo_logs/sample_logs_na.json" then .ok [1]
    else if path = "../demo_logs/sample_logs_ap.json" then .ok [2]
    else .error "no such file"
  unmarshal := fun data =>
    if data = [1] then .ok [⟨⟨1000, "boot ok"⟩⟩, ⟨⟨2000, "ready"⟩⟩]
    else .error "invalid character"
  rangeOrder := fun l => l.rotate 2
  openErr := none
  createErr := none
  countErr := none
  beginErr := fun _ => none
  prepareErr := fun _ => none
  execFails := fun _ _ => false
  commitErr := fun _ => none

/-- Outcome of `NewDatabase`: the value returned, the rows of the table afterwards,
and whether `loadDemoData` was called. -/
structure Boot where
  result : Except String Database
  rows : List LogEntry
  loaderCalled : Bool

/-- Go `NewDatabase`, started on a database file whose `logs` table holds `disk`
(no rows when the file or the table does not exist yet). -/
def NewDatabase (w : World) (disk : List LogEntry) : Boot :=
  match w.openErr with
  | some err => ⟨.error ("failed to open database: " ++ err), disk, false⟩
  | none =>
    match w.createErr with
    | some err => ⟨.error ("failed to create table: " ++ err), disk, false⟩
    | none =>
      match w.countErr with
      | some err => ⟨.error ("failed to count logs: " ++ err), disk, false⟩
      | none =>
        let count := disk.length
        if count = 0 then
          match loadDemoData w disk with
          | (.error err, rows) => ⟨.error ("failed to load demo data: " ++ err), rows, true⟩
          | (.ok _, rows) => ⟨.ok ⟨rows⟩, rows, true⟩
        else ⟨.ok ⟨disk⟩, disk, false⟩

/-! ## Query strings (`net/url`) -/

/-- Go `url.Values`, `map[string][]string`. -/
abbrev Values := List (String × List String)

/-- Go `Values.Get`: the first value of the key, or the empty string. -/
def Values.Get (v : Values) (key : String) : String :=
  match v with
  | [] => ""
  | (k, vs) :: rest => if k = key then vs.headD "" else Values.Get rest key

/-- Go `m[key] = append(m[key], value)`. -/
def Values.add (v : Values) (key value : String) : Values :=
  match v with
  | [] => [(key, [value])]
  | (k, vs) :: rest => if k = key then (k, vs ++ [value]) :: rest
    else (k, vs) :: Values.add rest key value

/-- Go `strings.Cut(s, sep)` for a one-byte separator: the text before the first
separator, the text after it, and whether it was found. -/
def cut (sep : Char) : List Char → List Char × List Char × Bool
  | [] => ([], [], false)
  | c :: rest =>
    if c = sep then ([], rest, true)
    else ((c :: (cut sep rest).1), (cut sep rest).2.1, (cut sep rest).2.2)

/-- Go `ishex`. -/
def ishex (c : Char) : Bool :=
  (decide (48 ≤ c.toNat) && decide (c.toNat ≤ 57))
    || (decide (97 ≤ c.toNat) && decide (c.toNat ≤ 102))
    || (decide (65 ≤ c.toNat) && decide (c.toNat ≤ 70))

/-- Go `unhex`. -/
def unhex (c : Char) : Nat :=
  if 48 ≤ c.toNat ∧ c.toNat ≤ 57 then c.toNat - 48
  else if 97 ≤ c.toNat ∧ c.toNat ≤ 102 then c.toNat - 97 + 10
  else if 65 ≤ c.toNat ∧ c.toNat ≤ 70 then c.toNat - 65 + 10
  else 0

/-- Go `url.QueryUnescape`: `%XX` becomes the byte `XX`, `+` becomes a blank;
`none` for a `%` that is not followed by two hex digits. -/
def QueryUnescape : List Char → Option (List Char)
  | [] => some []
  | c :: rest =>
    if c = '%' then
      match rest with
      | a :: b :: rest2 =>
        if ishex a && ishex b then
          (QueryUnescape rest2).map (fun t => Char.ofNat (unhex a * 16 + unhex b) :: t)
        else none
      | _ => none
    else if c = '+' then (QueryUnescape rest).map (fun t => ' ' :: t)
    else (QueryUnescape rest).map (fun t => c :: t)

/-- One pass of the loop of Go `url.parseQuery` on the segment `key`: a segment
with a semicolon, an empty segment and a segment that does not unescape are
skipped; otherwise the value is appended under the key. -/
def parseSegment (m : Values) (key : List Char) : Values :=
  if ';' ∈ key then m
  else if key = [] then m
  else
    match QueryUnescape (cut '=' key).1 with
    | none => m
    | some k =>
      match QueryUnescape (cut '=' key).2.1 with
      | none => m
      | some v => Values.add m (String.mk k) (String.mk v)

/-- The loop `for query != ""` of Go `url.parseQuery`; `fuel` bounds the number
of passes. -/
def parseQueryLoop : Nat → Values → List Char → Values
  | 0, m, _ => m
  | fuel + 1, m, query =>
    if query = [] then m
    else parseQueryLoop fuel (parseSegment m (cut '&' query).1) (cut '&' query).2.1

/-- Go `url.ParseQuery`, its error dropped as `URL.Query` does. -/
def ParseQuery (query : String) : Values :=
  parseQueryLoop query.length [] query.toList

/-! ## Calendar arithmetic (`time`) -/

/-- Go `absoluteZeroYear`: the year in which absolute time starts. -/
def absoluteZeroYear : Int := -292277022399

/-- Go `unixToInternal + internalToAbsolute`: seconds from absolute zero to the Unix epoch. -/
def unixToAbsolute : Int := 9223372028715321600

/-- Go `secondsPerDay`. -/
def secondsPerDay : Int := 86400

/-- Go `isLeap`. -/
def isLeap (year : Int) : Bool :=
  decide (year % 4 = 0) && (decide (year % 100 ≠ 0) || decide (year % 400 = 0))

/-- Go `daysBefore[m]`: days in a non-leap year before month `m + 1`. -/
def daysBefore : Nat → Nat
  | 0 => 0
  | 1 => 31
  | 2 => 59
  | 3 => 90
  | 4 => 120
  | 5 => 151
  | 6 => 181
  | 7 => 212
  | 8 => 243
  | 9 => 273
  | 10 => 304
  | 11 => 334
  | _ => 365

/-- Go `daysIn`. -/
def daysIn (m : Nat) (year : Int) : Nat :=
  if m = 2 ∧ isLeap year = true then 29 else daysBefore m - daysBefore (m - 1)

/-- Number of days of a year. -/
def yearLen (year : Int) : Int := if isLeap year = true then 366 else 365

/-- Go `daysSinceEpoch`: days from the start of absolute time to the start of `year`. -/
def daysSinceEpoch (year : Int) : Int :=
  let y := year - absoluteZeroYear
  let n400 := y / 400
  let y1 := y - 400 * n400
  let n100 := y1 / 100
  let y2 := y1 - 100 * n100
  let n4 := y2 / 4
  let y3 := y2 - 4 * n4
  146097 * n400 + 36524 * n100 + 1461 * n4 + 365 * y3

/-- Day of the year, from 0, of a date: `daysBefore[month-1]`, one more after
February in a leap year, plus `day - 1`, as in Go `Date`. -/
def dayOfYear (year : Int) (month day : Nat) : Int :=
  (daysBefore (month - 1) : Int) + (if isLeap year = true ∧ 3 ≤ month then 1 else 0)
    + ((day : Int) - 1)

/-- Go `Date(year, month, day, hour, min, sec, 0, UTC).Unix()` for fields that
are in range. -/
def dateUnix (year : Int) (month day hour min sec : Nat) : Int :=
  (daysSinceEpoch year + dayOfYear year month day) * secondsPerDay
    + ((hour : Int) * 3600 + (min : Int) * 60 + (sec : Int)) - unixToAbsolute

/-- The year and the day of the year (from 0) of an absolute day number, as
computed by Go `absDate`. -/
def absYearDay (d : Int) : Int × Int :=
  let n400 := d / 146097
  let d1 := d - 146097 * n400
  let n100 := d1 / 36524 - d1 / 36524 / 4
  let d2 := d1 - 36524 * n100
  let n4 := d2 / 1461
  let d3 := d2 - 1461 * n4
  let n1 := d3 / 365 - d3 / 365 / 4
  (400 * n400 + 100 * n100 + 4 * n4 + n1 + absoluteZeroYear, d3 - 365 * n1)

/-- Month and day of the month of a day of the year, as computed at the end of
Go `absDate`. -/
def monthDay (leap : Bool) (yday : Nat) : Nat × Nat :=
  if leap && decide (yday = 59) then (2, 29)
  else
    let day := if leap && decide (59 < yday) then yday - 1 else yday
    let month := day / 31
    if daysBefore (month + 1) ≤ day then (month + 2, day - daysBefore (month + 1) + 1)
    else (month + 1, day - daysBefore month + 1)

/-- Calendar and clock fields of an instant. -/
structure Civil where
  year : Int
  month : Nat
  day : Nat
  hour : Nat
  min : Nat
  sec : Nat
deriving DecidableEq, Repr

/-- Go `absDate` and `absClock` on the absolute time `abs` (seconds). -/
def absCivil (abs : Int) : Civil :=
  let yd := absYearDay (abs / secondsPerDay)
  let md := monthDay (isLeap yd.1) yd.2.toNat
  let s := (abs % secondsPerDay).toNat
  ⟨yd.1, md.1, md.2, s / 3600, s % 3600 / 60, s % 60⟩

/-- Go `*time.Location`, as the offset east of UTC, in seconds, in force at a
Unix time. -/
structure Location where
  lookup : Int → Int

/-- Go `time.UTC`. -/
def UTC : Location := ⟨fun _ => 0⟩

/-- Go `time.FixedZone`. -/
def FixedZone (offset : Int) : Location := ⟨fun _ => offset⟩

/-- Go `time.Time` without a monotonic reading: Unix seconds, nanoseconds within
the second, and the location. -/
structure Time where
  sec : Int
  nsec : Int
  loc : Location

/-- Go `Time.UnixMilli`. -/
def Time.UnixMilli (t : Time) : Int := t.sec * 1000 + t.nsec / 1000000

/-- Go `time.Unix(sec, nsec)` in the location `loc`. -/
def Unix (loc : Location) (sec nsec : Int) : Time :=
  if nsec < 0 ∨ 1000000000 ≤ nsec then
    let n := nsec.tdiv 1000000000
    let sec1 := sec + n
    let nsec1 := nsec - n * 1000000000
    if nsec1 < 0 then ⟨sec1 - 1, nsec1 + 1000000000, loc⟩ else ⟨sec1, nsec1, loc⟩
  else ⟨sec, nsec, loc⟩

/-- Go `time.UnixMilli(msec)`, whose result is in the local zone `loc`. -/
def UnixMilli (loc : Location) (msec : Int) : Time :=
  Unix loc (msec.tdiv 1000) (msec.tmod 1000 * 1000000)

/-- Go `Time.UTC`. -/
def Time.UTC (t : Time) : Time := ⟨t.sec, t.nsec, LogMcp.UTC⟩

/-- The zone offset of `t` in its location. -/
def Time.offset (t : Time) : Int := t.loc.lookup t.sec

/-- Calendar and clock fields of `t` in its location (Go `t.locabs` then `absDate`). -/
def Time.civil (t : Time) : Civil := absCivil (t.sec + t.offset + unixToAbsolute)

/-! ## Formatting and parsing (`time`, `strconv`) -/

/-- The decimal digit `d`. -/
def digitChar (d : Nat) : Char := Char.ofNat (48 + d % 10)

/-- Decimal digits of `n`, most significant first, in front of `acc`. -/
def decimalFuel : Nat → Nat → List Char → List Char
  | 0, n, acc => digitChar n :: acc
  | fuel + 1, n, acc =>
    if n < 10 then digitChar n :: acc
    else decimalFuel fuel (n / 10) (digitChar (n % 10) :: acc)

/-- Decimal digits of `n`. -/
def decimal (n : Nat) : List Char := decimalFuel n n []

/-- Go `appendInt(b, x, width)`: a sign for a negative `x`, then the digits of
`|x|`, padded with zeros to `width`; two and four digit fields have their own
branch, as in the source. -/
def appendInt (x : Int) (width : Nat) : List Char :=
  (if x < 0 then ['-'] else [])
    ++ (if width = 2 ∧ x.natAbs < 100 then
          [digitChar (x.natAbs / 10), digitChar (x.natAbs % 10)]
        else if width = 4 ∧ x.natAbs < 10000 then
          [digitChar (x.natAbs / 1000), digitChar (x.natAbs / 100 % 10),
            digitChar (x.natAbs / 10 % 10), digitChar (x.natAbs % 10)]
        else
          List.replicate (width - (decimal x.natAbs).length) '0' ++ decimal x.natAbs)

/-- The zone part `Z07:00` of a format: `Z` for offset 0, else sign, hours and minutes. -/
def formatZone (offset : Int) : List Char :=
  if offset = 0 then ['Z']
  else
    let zone := offset.tdiv 60
    (if zone < 0 then ['-'] else ['+'])
      ++ appendInt (zone.natAbs / 60 : Nat) 2 ++ [':'] ++ appendInt (zone.natAbs % 60 : Nat) 2

/-- The part `2006-01-02T15:04:05`, or with a blank for `T`, of a format. -/
def formatDateTime (c : Civil) (sep : Char) : List Char :=
  appendInt c.year 4 ++ ['-'] ++ appendInt c.month 2 ++ ['-'] ++ appendInt c.day 2 ++ [sep]
    ++ appendInt c.hour 2 ++ [':'] ++ appendInt c.min 2 ++ [':'] ++ appendInt c.sec 2

/-- Go `t.Format(time.RFC3339)`, layout `2006-01-02T15:04:05Z07:00`. -/
def Time.FormatRFC3339 (t : Time) : String :=
  String.mk (formatDateTime t.civil 'T' ++ formatZone t.offset)

/-- Drop the trailing zeros of a run of digits. -/
def trimZeros (ds : List Char) : List Char :=
  (ds.reverse.dropWhile (fun c => c = '0')).reverse

/-- The part `.999999999` of a format: the nanoseconds without trailing zeros,
and nothing at all when they are zero. -/
def formatNano (nsec : Int) : List Char :=
  let ds := trimZeros (appendInt nsec 9)
  if ds = [] then [] else '.' :: ds

/-- Go `t.UTC().String()`, layout `2006-01-02 15:04:05.999999999 -0700 MST`. -/
def Time.StringUTC (t : Time) : String :=
  String.mk (formatDateTime t.UTC.civil ' ' ++ formatNano t.nsec ++ " +0000 UTC".toList)

/-- Go `getnum`: one or two digits, exactly two when `fixed`. -/
def getnum (s : List Char) (fixed : Bool) : Option (Nat × List Char) :=
  match s with
  | [] => none
  | c0 :: rest =>
    if isDigit c0 then
      match rest with
      | [] => if fixed then none else some (digitVal c0, [])
      | c1 :: rest2 =>
        if isDigit c1 then some (digitVal c0 * 10 + digitVal c1, rest2)
        else if fixed then none else some (digitVal c0, rest)
    else none

/-- The element `2006` of a layout: exactly four digits. -/
def getyear (s : List Char) : Option (Nat × List Char) :=
  match s with
  | a :: b :: c :: d :: rest =>
    if isDigit a && isDigit b && isDigit c && isDigit d then
      some (digitsVal [a, b, c, d], rest)
    else none
  | _ => none

/-- A literal byte of a layout. -/
def expect (c : Char) (s : List Char) : Option (List Char) :=
  match s with
  | [] => none
  | c0 :: rest => if c0 = c then some rest else none

/-- A fractional second in the value where the layout has none: a period or comma
and digits, of which the first nine count (Go `parseNanoseconds`). -/
def getfrac (s : List Char) : Int × List Char :=
  match s with
  | p :: c1 :: rest =>
    if (p = '.' ∨ p = ',') ∧ isDigit c1 = true then
      let ds := c1 :: rest.takeWhile isDigit
      let kept := ds.take 9
      ((digitsVal kept * 10 ^ (9 - kept.length) : Nat), rest.dropWhile isDigit)
    else (0, s)
  | _ => (0, s)

/-- The layouts given to `time.Parse` in this program. -/
inductive Layout where
  /-- The layout `2006-01-02T15:04:05Z` of `ToEpoch`, whose `Z` is a literal. -/
  | epoch
  /-- Go `time.RFC3339`, `2006-01-02T15:04:05Z07:00`. -/
  | RFC3339
deriving DecidableEq, Repr

/-- The element `Z07:00` of a layout: `Z`, or a sign, two digits, a colon and two
digits, with at most 24 hours and 60 minutes.  Yields the offset in seconds. -/
def getzone (s : List Char) : Option (Int × List Char) :=
  match s with
  | [] => none
  | sign :: rest0 =>
    if sign = 'Z' then some (0, rest0)
    else
      match rest0 with
      | h1 :: h2 :: colon :: m1 :: m2 :: rest =>
        if colon = ':' then
          match getnum [h1, h2] true, getnum [m1, m2] true with
          | some (hr, _), some (mm, _) =>
            if 24 < hr ∨ 60 < mm then none
            else if sign = '+' then some ((((hr * 60 + mm) * 60 : Nat) : Int), rest)
            else if sign = '-' then some (-(((hr * 60 + mm) * 60 : Nat) : Int), rest)
            else none
          | _, _ => none
        else none
      | _ => none

/-- The part `2006-01-02` of a layout: year, month (1 to 12) and day, the day
being checked against the month only at the end of `Parse`. -/
def parseDate (value : List Char) : Option ((Nat × Nat × Nat) × List Char) :=
  match getyear value with
  | none => none
  | some (year, v1) =>
    match expect '-' v1 with
    | none => none
    | some v2 =>
      match getnum v2 true with
      | none => none
      | some (month, v3) =>
        if month = 0 ∨ 12 < month then none
        else
          match expect '-' v3 with
          | none => none
          | some v4 =>
            match getnum v4 true with
            | none => none
            | some (day, v5) => some ((year, month, day), v5)

/-- The part `15:04:05` of a layout: hour (one or two digits, below 24), minute
and second (two digits, below 60). -/
def parseClock (value : List Char) : Option ((Nat × Nat × Nat) × List Char) :=
  match getnum value false with
  | none => none
  | some (hour, v1) =>
    if 24 ≤ hour then none
    else
      match expect ':' v1 with
      | none => none
      | some v2 =>
        match getnum v2 true with
        | none => none
        | some (min, v3) =>
          if 60 ≤ min then none
          else
            match expect ':' v3 with
            | none => none
            | some v4 =>
              match getnum v4 true with
              | none => none
              | some (sec, v5) => if 60 ≤ sec then none else some ((hour, min, sec), v5)

/-- The end of a layout: the literal `Z` of the `ToEpoch` layout, or the element
`Z07:00` of RFC3339.  Yields the zone offset in seconds. -/
def parseZone (layout : Layout) (value : List Char) : Option (Int × List Char) :=
  match layout with
  | .epoch => (expect 'Z' value).map fun rest => ((0 : Int), rest)
  | .RFC3339 => getzone value

/-- Go `time.Parse(layout, value)` for the two layouts of this program; `none`
stands for a returned error. -/
def Parse? (layout : Layout) (value : List Char) : Option Time :=
  match parseDate value with
  | none => none
  | some (ymd, v1) =>
    match expect 'T' v1 with
    | none => none
    | some v2 =>
      match parseClock v2 with
      | none => none
      | some (hms, v3) =>
        match parseZone layout (getfrac v3).2 with
        | none => none
        | some (zoneOffset, rest) =>
          if rest ≠ [] then none
          else if ymd.2.2 < 1 ∨ daysIn ymd.2.1 ymd.1 < ymd.2.2 then none
          else some ⟨dateUnix ymd.1 ymd.2.1 ymd.2.2 hms.1 hms.2.1 hms.2.2 - zoneOffset,
            (getfrac v3).1, if zoneOffset = 0 then LogMcp.UTC else FixedZone zoneOffset⟩

/-- Go `strconv.ParseInt(s, 10, 64)`; `none` stands for a returned error. -/
def ParseInt (s : String) : Option Int :=
  match intLiteral? s.toList with
  | some i => if isInt64 i then some i else none
  | none => none

/-! ## The query service (`log-server/service/server.go`) -/

/-- Go `data.Store`. -/
structure Store where
  GetLogs : String → String → String → Except String (List LogEntry)
  GetStats : Unit → Except String StatsMap

/-- The `Store` implemented by a `Database`. -/
def Database.toStore (db : Database) : Store :=
  ⟨fun start end_ region => db.GetLogs start end_ region, fun _ => db.GetStats⟩

/-- A call received by the store. -/
inductive StoreCall where
  | GetLogs (start end_ region : String)
  | GetStats
deriving DecidableEq, Repr

/-- Go `Server`. -/
structure Server where
  store : Store

/-- The part of Go `http.Request` that the handlers read: `r.URL.RawQuery`. -/
structure Request where
  RawQuery : String
deriving DecidableEq, Repr

/-- Go `r.URL.Query()`. -/
def Request.Query (r : Request) : Values := ParseQuery r.RawQuery

/-- Body of a response.  `failure` is the text written by `http.Error`, without
the rendering of the library error that `%v` appends; the other cases are the
JSON objects written by the handlers. -/
inductive Body where
  | failure (msg : String)
  | logs (region start end_ : String) (count : Nat) (logs : List LogEntry)
  | epoch (epoch_ms : Int) (date : String)
  | readable (epoch_ms : Int) (readable utc : String)
deriving DecidableEq, Repr

/-- Status code and body written to the `http.ResponseWriter`. -/
structure Response where
  status : Nat
  body : Body
deriving DecidableEq, Repr

/-- Go `http.StatusBadRequest`. -/
def StatusBadRequest : Nat := 400

/-- Go `http.StatusInternalServerError`. -/
def StatusInternalServerError : Nat := 500

/-- Go `http.StatusOK`. -/
def StatusOK : Nat := 200

/-- Go `(*Server).GetLogs`: the response, and the calls made to the store. -/
def Server.GetLogs (s : Server) (r : Request) : Response × List StoreCall :=
  let region := r.Query.Get "region"
  let startDate := r.Query.Get "start_date"
  let endDate := r.Query.Get "end_date"
  if region = "" ∨ startDate = "" ∨ endDate = "" then
    (⟨StatusBadRequest,
      .failure "Missing required parameters: region, start_date, end_date"⟩, [])
  else
    match s.store.GetLogs startDate endDate region with
    | .error _ =>
      (⟨StatusInternalServerError, .failure "Failed to fetch logs: "⟩,
        [.GetLogs startDate endDate region])
    | .ok logs =>
      (⟨StatusOK, .logs region startDate endDate logs.length logs⟩,
        [.GetLogs startDate endDate region])

/-- Go `(*Server).ToEpoch`. -/
def Server.ToEpoch (_s : Server) (r : Request) : Response :=
  let year := r.Query.Get "year"
  let month := r.Query.Get "month"
  let day := r.Query.Get "day"
  let timeStr := r.Query.Get "time"
  if year = "" ∨ month = "" ∨ day = "" ∨ timeStr = "" then
    ⟨StatusBadRequest, .failure "Missing parameters: year, month, day, time"⟩
  else
    let dateStr := year ++ "-" ++ month ++ "-" ++ day ++ "T" ++ timeStr ++ ":00Z"
    match Parse? .epoch dateStr.toList with
    | none => ⟨StatusBadRequest, .failure "Invalid date format: "⟩
    | some t => ⟨StatusOK, .epoch t.UnixMilli dateStr⟩

/-- Go `(*Server).ToReadable`, on a host whose local time zone is `loc`. -/
def Server.ToReadable (_s : Server) (loc : Location) (r : Request) : Response :=
  let epochMs := r.Query.Get "epoch_ms"
  if epochMs = "" then
    ⟨StatusBadRequest, .failure "Missing parameter: epoch_ms"⟩
  else
    match ParseInt epochMs with
    | none => ⟨StatusBadRequest, .failure "Invalid epoch_ms: "⟩
    | some ms =>
      let t := UnixMilli loc ms
      ⟨StatusOK, .readable ms t.FormatRFC3339 t.StringUTC⟩

/-! ## The tool facade (`mcp-server/cmd/main.go`) -/

theorem foldl_append_filter (p : LogEntry → Bool) (rows acc : List LogEntry) :
    rows.foldl (fun logs row => if p row then logs ++ [row] else logs) acc
      = acc ++ rows.filter p := by
  induction rows generalizing acc with
  | nil => simp
  | cons r rs ih =>
    simp only [List.foldl_cons, ih, List.filter_cons]
    by_cases h : p r = true <;> simp [h]

theorem log2Fuel_pow_le (fuel n : Nat) (hn : 1 ≤ n) : 2 ^ log2Fuel fuel n ≤ n := by
  induction fuel generalizing n with
  | zero => simpa [log2Fuel] using hn
  | succ f ih =>
    unfold log2Fuel
    split_ifs with h
    · have := ih (n / 2) (by omega)
      rw [pow_succ]
      omega
    · simpa using hn

theorem le_log2Fuel (fuel n k : Nat) (hf : n ≤ fuel) (hk : 2 ^ k ≤ n) :
    k ≤ log2Fuel fuel n := by
  induction fuel generalizing n k with
  | zero =>
    have : 0 < 2 ^ k := by positivity
    omega
  | succ f ih =>
    unfold log2Fuel
    split_ifs with h
    · cases k with
      | zero => omega
      | succ k1 =>
        have h2 : 2 ^ k1 ≤ n / 2 := by
          rw [pow_succ] at hk
          omega
        have := ih (n / 2) k1 (by omega) h2
        omega
    · cases k with
      | zero => omega
      | succ k1 =>
        have : 0 < 2 ^ k1 := by positivity
        rw [pow_succ] at hk
        omega

theorem roundBinary64_ge (n v : Nat) (hn : 2 ^ 63 ≤ n) (h : roundBinary64 n = some v) :
    2 ^ 63 ≤ v := by
  have hn1 : 1 ≤ n := le_trans (by norm_num) hn
  have hl : 63 ≤ floorLog2 n := le_log2Fuel n n 63 (le_refl n) hn
  have hpow : 2 ^ floorLog2 n ≤ n := log2Fuel_pow_le n n hn1
  have hk : 2 ^ 52 * 2 ^ (floorLog2 n - 52) = 2 ^ floorLog2 n := by
    rw [← pow_add]; congr 1; omega
  have hq : 2 ^ 52 ≤ n / 2 ^ (floorLog2 n - 52) := by
    rw [Nat.le_div_iff_mul_le (by positivity)]
    rw [hk]; exact hpow
  have h63 : (2:Nat) ^ 63 ≤ 2 ^ floorLog2 n := Nat.pow_le_pow_right (by norm_num) hl
  have hbase : 2 ^ 63 ≤ n / 2 ^ (floorLog2 n - 52) * 2 ^ (floorLog2 n - 52) :=
    calc 2 ^ 63 ≤ 2 ^ floorLog2 n := h63
      _ = 2 ^ 52 * 2 ^ (floorLog2 n - 52) := hk.symm
      _ ≤ n / 2 ^ (floorLog2 n - 52) * 2 ^ (floorLog2 n - 52) := Nat.mul_le_mul_right _ hq
  unfold roundBinary64 at h
  simp only at h
  split_ifs at h with h1 h2 h3 h4
  · omega
  · have hv := Option.some.inj h
    rw [← hv]
    exact le_trans hbase (Nat.mul_le_mul_right _ (Nat.le_succ _))
  · have hv := Option.some.inj h
    rw [← hv]; exact hbase

theorem ofInt_above (s : Int) (hs : maxInt64 < s) :
    SqlReal.ofInt s = .posInf ∨ ∃ v : Int, SqlReal.ofInt s = .fin v ∧ maxInt64 < v := by
  unfold maxInt64 at *
  have h0 : 0 ≤ s := by omega
  have hn : 2 ^ 63 ≤ s.toNat := by omega
  unfold SqlReal.ofInt
  rw [if_pos h0]
  cases hrb : roundBinary64 s.toNat with
  | none => left; rfl
  | some v =>
    right
    have := roundBinary64_ge _ v hn hrb
    exact ⟨v, rfl, by omega⟩

theorem ofInt_below (s : Int) (hs : s < minInt64) :
    SqlReal.ofInt s = .negInf ∨ ∃ v : Int, SqlReal.ofInt s = .fin v ∧ v ≤ minInt64 := by
  unfold minInt64 at *
  have h0 : ¬ 0 ≤ s := by omega
  have hn : 2 ^ 63 ≤ (-s).toNat := by omega
  unfold SqlReal.ofInt
  rw [if_neg h0]
  cases hrb : roundBinary64 (-s).toNat with
  | none => left; rfl
  | some v =>
    right
    have := roundBinary64_ge _ v hn hrb
    exact ⟨-(v : Int), rfl, by omega⟩

theorem intGe_affinity (t s : Int) (start : String) (ht : isInt64 t)
    (hs : intLiteral? start.toList = some s) :
    intGe t (applyNumericAffinity start) = decide (s ≤ t) := by
  unfold applyNumericAffinity
  rw [hs]
  simp only
  by_cases hr : isInt64 s
  · simp [hr, intGe]
  · simp only [hr, if_false]
    unfold isInt64 at hr ht
    by_cases hlt : s < minInt64
    · have hd : decide (s ≤ t) = true := by rw [decide_eq_true_iff]; omega
      rcases ofInt_below s hlt with h | ⟨v, h, hv⟩
      · rw [h, hd]; rfl
      · rw [h, hd]; simp only [intGe]; rw [decide_eq_true_iff]; omega
    · have hgt : maxInt64 < s := by omega
      have hd : decide (s ≤ t) = false := by rw [decide_eq_false_iff_not]; omega
      rcases ofInt_above s hgt with h | ⟨v, h, hv⟩
      · rw [h, hd]; rfl
      · rw [h, hd]; simp only [intGe]; rw [decide_eq_false_iff_not]; omega

theorem intLe_affinity (t e : Int) (end_ : String) (ht : isInt64 t)
    (he : intLiteral? end_.toList = some e) (hmin : minInt64 ≤ e) :
    intLe t (applyNumericAffinity end_) = decide (t ≤ e) := by
  unfold applyNumericAffinity
  rw [he]
  simp only
  by_cases hr : isInt64 e
  · simp [hr, intLe]
  · simp only [hr, if_false]
    unfold isInt64 at hr ht
    have hgt : maxInt64 < e := by omega
    have hd : decide (t ≤ e) = true := by rw [decide_eq_true_iff]; omega
    rcases ofInt_above e hgt with h | ⟨v, h, hv⟩
    · rw [h, hd]; rfl
    · rw [h, hd]; simp only [intLe]; rw [decide_eq_true_iff]; omega

theorem selectLogsWhere_eq (region start end_ : String) (s e : Int) (row : LogEntry)
    (hrow : row.wf) (hs : intLiteral? start.toList = some s)
    (he : intLiteral? end_.toList = some e) (hmin : minInt64 ≤ e) :
    selectLogsWhere region start end_ row
      = decide (row.Region = region ∧ s ≤ row.Time ∧ row.Time ≤ e) := by
  unfold selectLogsWhere
  rw [intGe_affinity row.Time s start hrow hs, intLe_affinity row.Time e end_ hrow he hmin]
  simp only [Bool.decide_and]

/-- C1 (amended). `Database.GetLogs(start, end, region)`, with the bounds given as
the decimal text of integers `s` and `e` where `e` is not below the smallest
64-bit integer, returns exactly the stored rows whose region equals `region`
and whose time lies in `[s, e]`, each as often as it is stored (in storage
order); hence a stored entry is returned by the query for its own region with
both bounds equal to its own time. -/
theorem GetLogs_exact (db : Database) (region start end_ : String) (s e : Int)
    (hwf : ∀ row ∈ db.conn, row.wf)
    (hs : intLiteral? start.toList = some s) (he : intLiteral? end_.toList = some e)
    (hmin : minInt64 ≤ e) :
    db.GetLogs start end_ region
        = .ok (db.conn.filter
            (fun row => decide (row.Region = region ∧ s ≤ row.Time ∧ row.Time ≤ e)))
      ∧ (∀ x : LogEntry,
          (db.conn.filter
            (fun row => decide (row.Region = region ∧ s ≤ row.Time ∧ row.Time ≤ e))).count x
            = if x.Region = region ∧ s ≤ x.Time ∧ x.Time ≤ e then db.conn.count x else 0)
      ∧ (∀ x ∈ db.conn, ∀ t : String, intLiteral? t.toList = some x.Time →
          ∃ logs, db.GetLogs t t x.Region = .ok logs ∧ x ∈ logs) := by
  have key : ∀ (region start end_ : String) (s e : Int),
      intLiteral? start.toList = some s → intLiteral? end_.toList = some e →
      minInt64 ≤ e →
      db.GetLogs start end_ region
        = .ok (db.conn.filter
            (fun row => decide (row.Region = region ∧ s ≤ row.Time ∧ row.Time ≤ e))) := by
    intro region start end_ s e hs he hmin
    unfold Database.GetLogs
    rw [foldl_append_filter, List.nil_append]
    congr 1
    apply List.filter_congr
    intro row hrow
    exact selectLogsWhere_eq region start end_ s e row (hwf row hrow) hs he hmin
  refine ⟨key region start end_ s e hs he hmin, ?_, ?_⟩
  · intro x
    by_cases hx : x.Region = region ∧ s ≤ x.Time ∧ x.Time ≤ e
    · rw [if_pos hx]
      exact List.count_filter (by simpa using hx)
    · rw [if_neg hx, List.count_eq_zero]
      intro hmem
      rw [List.mem_filter] at hmem
      exact hx (by simpa using hmem.2)
  · intro x hx t ht
    refine ⟨_, key x.Region t t x.Time x.Time ht ht (hwf x hx).1, ?_⟩
    rw [List.mem_filter]
    exact ⟨hx, by simp⟩

/-- C1, witness: on the store holding only `NA, 1000, "boot ok"`, the query
`GetLogs("500", "1500", "NA")` returns exactly that row. -/
theorem GetLogs_exact_witness :
    exampleDb.GetLogs "500" "1500" "NA" = .ok [⟨"NA", 1000, "boot ok"⟩] := by
  have h := (GetLogs_exact exampleDb "NA" "500" "1500" 500 1500
    (by decide) (by decide) (by decide) (by decide)).1
  rw [h]; decide

/-- C1, counterexample: a store holding one row whose time is the smallest 64-bit
integer, queried with both bounds `-9223372036854775809`.  The bounds are
integers in decimal text and the stored time is above both, so no row
satisfies `start <= time <= end`; yet the row is returned, because the engine
turns the out-of-range literal into the REAL `-9223372036854775808.0`. -/
theorem GetLogs_below_int64_counterexample :
    intLiteral? "-9223372036854775809".toList = some (-9223372036854775809)
      ∧ (⟨"NA", -9223372036854775808, "first"⟩ : LogEntry).wf
      ∧ ¬ ((-9223372036854775809 : Int) ≤ -9223372036854775808
            ∧ (-9223372036854775808 : Int) ≤ -9223372036854775809)
      ∧ (Database.mk [⟨"NA", -9223372036854775808, "first"⟩]).GetLogs
          "-9223372036854775809" "-9223372036854775809" "NA"
          = .ok [⟨"NA", -9223372036854775808, "first"⟩] := by
  refine ⟨by decide, by decide, by decide, ?_⟩
  decide

/-! ## Statistics -/

theorem get?_eq_none_iff (m : StatsMap) (k : String) :
    StatsMap.get? m k = none ↔ k ∉ m.map Prod.fst := by
  induction m with
  | nil => simp [StatsMap.get?]
  | cons p rest ih =>
    obtain ⟨k1, v⟩ := p
    simp only [StatsMap.get?, List.map_cons, List.mem_cons, not_or]
    by_cases h : k1 = k
    · simp [h]
    · simp only [h, if_false, ih]
      constructor
      · intro h2; exact ⟨fun e => h e.symm, h2⟩
      · intro h2; exact h2.2

theorem set_of_not_mem (m : StatsMap) (k : String) (v : Nat) (h : k ∉ m.map Prod.fst) :
    StatsMap.set m k v = m ++ [(k, v)] := by
  induction m with
  | nil => rfl
  | cons p rest ih =>
    obtain ⟨k1, v1⟩ := p
    simp only [List.map_cons, List.mem_cons, not_or] at h
    have hne : ¬ k1 = k := fun e => h.1 e.symm
    simp only [StatsMap.set, hne, if_false, ih h.2, List.cons_append]

theorem foldl_set_of_nodup (l acc : StatsMap) (hl : (l.map Prod.fst).Nodup)
    (hd : ∀ k ∈ l.map Prod.fst, k ∉ acc.map Prod.fst) :
    l.foldl (fun stats rc => StatsMap.set stats rc.1 rc.2) acc = acc ++ l := by
  induction l generalizing acc with
  | nil => simp
  | cons p rest ih =>
    obtain ⟨k, v⟩ := p
    simp only [List.map_cons, List.nodup_cons] at hl
    simp only [List.foldl_cons]
    rw [set_of_not_mem acc k v (hd k (by simp))]
    rw [ih (acc ++ [(k, v)]) hl.2]
    · simp
    · intro k2 hk2
      simp only [List.map_append, List.map_cons, List.map_nil, List.mem_append,
        List.mem_singleton, not_or]
      refine ⟨hd k2 (by simp [hk2]), ?_⟩
      intro e; subst e; exact hl.1 hk2

theorem groupStep_keys (g : List (String × Nat)) (row : LogEntry) :
    (groupStep g row).map Prod.fst
      = if row.Region ∈ g.map Prod.fst then g.map Prod.fst
        else g.map Prod.fst ++ [row.Region] := by
  induction g with
  | nil => simp [groupStep]
  | cons p rest ih =>
    obtain ⟨r, c⟩ := p
    simp only [groupStep, List.map_cons, List.mem_cons]
    by_cases h : r = row.Region
    · simp [h]
    · have hne : ¬ row.Region = r := fun e => h e.symm
      simp only [h, if_false, List.map_cons, ih, hne, false_or]
      split_ifs <;> simp

theorem groupStep_nodup (g : List (String × Nat)) (row : LogEntry)
    (h : (g.map Prod.fst).Nodup) : ((groupStep g row).map Prod.fst).Nodup := by
  rw [groupStep_keys]
  split_ifs with hm
  · exact h
  · rw [List.nodup_append]
    refine ⟨h, by simp, ?_⟩
    intro a ha hb
    simp only [List.mem_singleton] at hb
    subst hb; exact hm ha

theorem groupStep_get? (g : List (String × Nat)) (row : LogEntry) (k : String) :
    StatsMap.get? (groupStep g row) k
      = if row.Region = k then some ((StatsMap.get? g k).getD 0 + 1)
        else StatsMap.get? g k := by
  induction g with
  | nil =>
    simp only [groupStep, StatsMap.get?]
    split_ifs <;> simp
  | cons p rest ih =>
    obtain ⟨r, c⟩ := p
    simp only [groupStep]
    by_cases h : r = row.Region
    · subst h
      simp only [if_true, StatsMap.get?]
      split_ifs <;> simp
    · simp only [h, if_false, StatsMap.get?, ih]
      by_cases h2 : r = k
      · have : ¬ row.Region = k := fun e => h (h2.trans e.symm)
        simp [h2, this]
      · simp [h2]

theorem groupStep_sum (g : List (String × Nat)) (row : LogEntry) :
    ((groupStep g row).map Prod.snd).sum = (g.map Prod.snd).sum + 1 := by
  induction g with
  | nil => simp [groupStep]
  | cons p rest ih =>
    obtain ⟨r, c⟩ := p
    simp only [groupStep]
    split_ifs
    · simp only [List.map_cons, List.sum_cons]; omega
    · simp only [List.map_cons, List.sum_cons, ih]; omega

theorem statsRows_snoc (rows : List LogEntry) (row : LogEntry) :
    statsRows (rows ++ [row]) = groupStep (statsRows rows) row := by
  simp [statsRows, List.foldl_append]

theorem statsRows_nodup (rows : List LogEntry) : ((statsRows rows).map Prod.fst).Nodup := by
  induction rows using List.reverseRecOn with
  | nil => simp [statsRows]
  | append_singleton rs r ih => rw [statsRows_snoc]; exact groupStep_nodup _ _ ih

theorem statsRows_get? (rows : List LogEntry) (k : String) :
    StatsMap.get? (statsRows rows) k
      = if rows.countP (fun row => decide (row.Region = k)) = 0 then none
        else some (rows.countP (fun row => decide (row.Region = k))) := by
  induction rows using List.reverseRecOn with
  | nil => simp [statsRows, StatsMap.get?]
  | append_singleton rs r ih =>
    rw [statsRows_snoc, groupStep_get?, ih, List.countP_append]
    by_cases h : r.Region = k
    · simp only [h, if_true, List.countP_singleton, decide_True]
      by_cases h0 : rs.countP (fun row => decide (row.Region = k)) = 0
      · simp [h0]
      · have h1 : ¬ rs.countP (fun row => decide (row.Region = k)) + 1 = 0 := by omega
        simp [h0]
    · simp [h, List.countP_singleton]

theorem statsRows_sum (rows : List LogEntry) :
    ((statsRows rows).map Prod.snd).sum = rows.length := by
  induction rows using List.reverseRecOn with
  | nil => simp [statsRows]
  | append_singleton rs r ih => rw [statsRows_snoc, groupStep_sum, ih]; simp

theorem GetStats_eq (db : Database) : db.GetStats = .ok (statsRows db.conn) := by
  unfold Database.GetStats
  rw [foldl_set_of_nodup _ [] (statsRows_nodup db.conn) (by simp)]
  simp

/-- C6. `Database.GetStats` returns a map (pairwise distinct keys) in which a
region is a key exactly when at least one stored row has that region, and its
value is the number of stored rows with that region, duplicates counted; so no
value is 0.  On the store holding only `NA, 1000, "boot ok"` the map is
`NA -> 1`. -/
theorem GetStats_counts (db : Database) :
    ∃ stats : StatsMap, db.GetStats = .ok stats
      ∧ (stats.map Prod.fst).Nodup
      ∧ (∀ r : String, r ∈ stats.map Prod.fst ↔ ∃ row ∈ db.conn, row.Region = r)
      ∧ (∀ r : String, stats.get? r
          = if db.conn.countP (fun row => decide (row.Region = r)) = 0 then none
            else some (db.conn.countP (fun row => decide (row.Region = r))))
      ∧ (∀ r : String, ∀ v : Nat, stats.get? r = some v → v ≠ 0)
      ∧ exampleDb.GetStats = .ok [("NA", 1)] := by
  refine ⟨statsRows db.conn, GetStats_eq db, statsRows_nodup _, ?_, statsRows_get? _, ?_, ?_⟩
  · intro r
    have h := get?_eq_none_iff (statsRows db.conn) r
    rw [statsRows_get?] at h
    constructor
    · intro hm
      by_contra hne
      have h0 : db.conn.countP (fun row => decide (row.Region = r)) = 0 := by
        rw [List.countP_eq_zero]
        intro row hrow
        simp only [decide_eq_true_eq]
        intro e; exact hne ⟨row, hrow, e⟩
      rw [if_pos h0] at h
      exact (h.1 rfl) hm
    · rintro ⟨row, hrow, e⟩
      by_contra hm
      have hnone := h.2 hm
      have hpos : 0 < db.conn.countP (fun row => decide (row.Region = r)) :=
        List.countP_pos_iff.2 ⟨row, hrow, by simpa using e⟩
      rw [if_neg (by omega)] at hnone
      exact absurd hnone (by simp)
  · intro r v hv
    rw [statsRows_get?] at hv
    split_ifs at hv with h0
    have := Option.some.inj hv
    omega
  · decide

/-- C7. The values of the map returned by `Database.GetStats` add up to the number
of rows in the store. -/
theorem GetStats_sum (db : Database) :
    ∃ stats : StatsMap, db.GetStats = .ok stats
      ∧ (stats.map Prod.snd).sum = db.conn.length :=
  ⟨statsRows db.conn, GetStats_eq db, statsRows_sum db.conn⟩

/-! ## Bootstrap -/

/-- C8. `NewDatabase` on a store that already holds a row never calls
`loadDemoData` and leaves the rows, hence the row count, as they were, whatever
the demo files contain; and in a run in which the connection opens and the row
count is read, `loadDemoData` is called if and only if that count is 0. -/
theorem NewDatabase_bootstrap_gate (w : World) (disk rest : List LogEntry) (row : LogEntry) :
    (NewDatabase w (row :: rest)).loaderCalled = false
      ∧ (NewDatabase w (row :: rest)).rows = row :: rest
      ∧ (NewDatabase w (row :: rest)).rows.length = (row :: rest).length
      ∧ (w.openErr = none → w.createErr = none → w.countErr = none →
          (NewDatabase w (row :: rest)).result = .ok ⟨row :: rest⟩
          ∧ ((NewDatabase w disk).loaderCalled = true ↔ disk.length = 0)) := by
  have h1 : (NewDatabase w (row :: rest)).loaderCalled = false
      ∧ (NewDatabase w (row :: rest)).rows = row :: rest := by
    unfold NewDatabase
    cases w.openErr <;> cases w.createErr <;> cases w.countErr <;> simp
  refine ⟨h1.1, h1.2, by rw [h1.2], ?_⟩
  intro ho hc hn
  constructor
  · simp [NewDatabase, ho, hc, hn]
  · unfold NewDatabase
    simp only [ho, hc, hn]
    by_cases h0 : disk.length = 0
    · simp only [h0, if_true, iff_true]
      rcases hl : loadDemoData w disk with ⟨res, rows⟩
      cases res <;> simp
    · simp [h0]

/-- C8, witness: a world without faults, a store with one row, and an empty store. -/
theorem NewDatabase_bootstrap_gate_witness :
    bareWorld.openErr = none ∧ bareWorld.createErr = none ∧ bareWorld.countErr = none
      ∧ (NewDatabase bareWorld exampleDb.conn).result = .ok exampleDb
      ∧ (NewDatabase bareWorld exampleDb.conn).loaderCalled = false
      ∧ (NewDatabase bareWorld []).loaderCalled = true :=
  ⟨rfl, rfl, rfl,
    ((NewDatabase_bootstrap_gate bareWorld [] [] ⟨"NA", 1000, "boot ok"⟩).2.2.2 rfl rfl rfl).1,
    (NewDatabase_bootstrap_gate bareWorld [] [] ⟨"NA", 1000, "boot ok"⟩).1,
    ((NewDatabase_bootstrap_gate bareWorld [] [] ⟨"NA", 1000, "boot ok"⟩).2.2.2
      rfl rfl rfl).2.2 rfl⟩

theorem execAll_eq_map (w : World) (region : String) (he : ∀ r i, w.execFails r i = false)
    (i : Nat) (logs : List Log) : execAll w region i logs = logs.map (entryOf region) := by
  induction logs generalizing i with
  | nil => rfl
  | cons l rest ih => simp [execAll, he, ih, entryOf]

theorem loadRegions_ok (w : World)
    (hb : ∀ r, w.beginErr r = none) (hp : ∀ r, w.prepareErr r = none)
    (he : ∀ r i, w.execFails r i = false) (hc : ∀ r, w.commitErr r = none)
    (items : List (String × String)) (conn : List LogEntry) :
    loadRegions w items conn = (.ok (), conn ++ (items.map (regionRows w)).flatten) := by
  induction items generalizing conn with
  | nil => simp [loadRegions]
  | cons item rest ih =>
    obtain ⟨region, path⟩ := item
    unfold loadRegions
    cases hl : LoadFile w path with
    | error e => simp [ih, regionRows, readAndParse, hl]
    | ok data =>
      cases hq : Parse w data with
      | error e => simp [ih, regionRows, readAndParse, hl, hq]
      | ok logs =>
        simp [ih, regionRows, readAndParse, hl, hq, hb, hp, hc, execAll_eq_map w region he]

theorem regionRows_region (w : World) (item : String × String) :
    ∀ row ∈ regionRows w item, row.Region = item.1 := by
  intro row hrow
  unfold regionRows at hrow
  cases h : readAndParse w item.2 with
  | error e => simp [h] at hrow
  | ok logs =>
    simp only [h, List.mem_map] at hrow
    obtain ⟨l, _, rfl⟩ := hrow
    rfl

theorem filter_join_of_nodup (w : World) (items : List (String × String))
    (hnd : (items.map Prod.fst).Nodup) (item : String × String) (hmem : item ∈ items) :
    ((items.map (regionRows w)).flatten).filter (fun row => decide (row.Region = item.1))
      = regionRows w item := by
  induction items with
  | nil => simp at hmem
  | cons it rest ih =>
    simp only [List.map_cons, List.nodup_cons] at hnd
    simp only [List.map_cons, List.flatten_cons, List.filter_append]
    rcases List.mem_cons.1 hmem with heq | hin
    · subst heq
      have h1 : (regionRows w item).filter (fun row => decide (row.Region = item.1))
          = regionRows w item := by
        rw [List.filter_eq_self]
        intro row hrow
        simpa using regionRows_region w item row hrow
      have h2 : ((rest.map (regionRows w)).flatten).filter
          (fun row => decide (row.Region = item.1)) = [] := by
        rw [List.filter_eq_nil_iff]
        intro row hrow
        simp only [List.mem_flatten, List.mem_map] at hrow
        obtain ⟨l, ⟨it2, hit2, rfl⟩, hrl⟩ := hrow
        have := regionRows_region w it2 row hrl
        simp only [decide_eq_true_eq]
        intro e
        apply hnd.1
        rw [← e, this]
        exact List.mem_map_of_mem _ hit2
      rw [h1, h2, List.append_nil]
    · have h1 : (regionRows w it).filter (fun row => decide (row.Region = item.1)) = [] := by
        rw [List.filter_eq_nil_iff]
        intro row hrow
        have := regionRows_region w it row hrow
        simp only [decide_eq_true_eq]
        intro e
        apply hnd.1
        rw [← this, e]
        exact List.mem_map_of_mem _ hin
      rw [h1, List.nil_append, ih hnd.2 hin]

/-- C9. When no transaction operation fails, `loadDemoData` on the empty store
returns without error whatever the outcome of reading and parsing the three
region files and in whatever order `range` visits them; afterwards the rows
of a region are exactly one row `(region, raw.time, raw.log)` per parsed
record when its file was read and parsed, and none when its read or parse
failed; every stored row belongs to NA, EU or AP. -/
theorem loadDemoData_best_effort (w : World)
    (hperm : ∀ l, (w.rangeOrder l).Perm l)
    (hb : ∀ r, w.beginErr r = none) (hp : ∀ r, w.prepareErr r = none)
    (he : ∀ r i, w.execFails r i = false) (hc : ∀ r, w.commitErr r = none) :
    ∃ rows : List LogEntry, loadDemoData w [] = (.ok (), rows)
      ∧ (∀ item ∈ regions (demoPath w),
          rows.filter (fun row => decide (row.Region = item.1))
            = match readAndParse w item.2 with
              | .ok logs => logs.map (entryOf item.1)
              | .error _ => [])
      ∧ (∀ row ∈ rows, row.Region = "NA" ∨ row.Region = "EU" ∨ row.Region = "AP") := by
  refine ⟨((w.rangeOrder (regions (demoPath w))).map (regionRows w)).flatten, ?_, ?_, ?_⟩
  · unfold loadDemoData
    rw [loadRegions_ok w hb hp he hc, List.nil_append]
  · intro item hitem
    have hp2 := hperm (regions (demoPath w))
    have hnd : ((w.rangeOrder (regions (demoPath w))).map Prod.fst).Nodup := by
      rw [(hp2.map Prod.fst).nodup_iff]
      simp [regions]
    have := filter_join_of_nodup w _ hnd item (hp2.mem_iff.2 hitem)
    rw [this]
    rfl
  · intro row hrow
    simp only [List.mem_flatten, List.mem_map] at hrow
    obtain ⟨l, ⟨it, hit, rfl⟩, hrl⟩ := hrow
    have hreg := regionRows_region w it row hrl
    have hin := (hperm (regions (demoPath w))).mem_iff.1 hit
    simp only [regions, List.mem_cons, List.mem_singleton, List.not_mem_nil, or_false] at hin
    rcases hin with h | h | h <;> rw [hreg, h] <;> simp

/-- C9, witness: the NA file parses to two records, the EU file is missing, the AP
file does not parse, and `range` visits AP, NA, EU: the store ends with the two
NA rows. -/
theorem loadDemoData_best_effort_witness :
    (∃ rows : List LogEntry, loadDemoData demoWorld [] = (.ok (), rows)
      ∧ (∀ item ∈ regions (demoPath demoWorld),
          rows.filter (fun row => decide (row.Region = item.1))
            = match readAndParse demoWorld item.2 with
              | .ok logs => logs.map (entryOf item.1)
              | .error _ => [])
      ∧ (∀ row ∈ rows, row.Region = "NA" ∨ row.Region = "EU" ∨ row.Region = "AP"))
      ∧ loadDemoData demoWorld []
          = (.ok (), [⟨"NA", 1000, "boot ok"⟩, ⟨"NA", 2000, "ready"⟩]) :=
  ⟨loadDemoData_best_effort demoWorld (fun l => List.rotate_perm l 2) (fun _ => rfl)
    (fun _ => rfl) (fun _ _ => rfl) (fun _ => rfl), by decide⟩

/-! ## Query service -/

/-- C2. `Server.GetLogs` answers 400 and makes no call to the store when `region`,
`start_date` or `end_date` is empty or absent (`Get` yields the empty string
for both); otherwise it makes exactly one call, `GetLogs(start_date, end_date,
region)`.  A request without `end_date` is rejected; the request
`region=NA&start_date=500&end_date=1500` on the one-row store returns that
row with count 1. -/
theorem Server_GetLogs_validation (s : Server) (r : Request) :
    (if r.Query.Get "region" = "" ∨ r.Query.Get "start_date" = "" ∨ r.Query.Get "end_date" = ""
      then (s.GetLogs r).1.status = StatusBadRequest ∧ (s.GetLogs r).2 = []
      else (s.GetLogs r).2
        = [.GetLogs (r.Query.Get "start_date") (r.Query.Get "end_date") (r.Query.Get "region")])
      ∧ (Server.mk exampleDb.toStore).GetLogs ⟨"region=NA&start_date=500"⟩
          = (⟨400, .failure "Missing required parameters: region, start_date, end_date"⟩, [])
      ∧ (Server.mk exampleDb.toStore).GetLogs ⟨"region=NA&start_date=500&end_date=1500"⟩
          = (⟨200, .logs "NA" "500" "1500" 1 [⟨"NA", 1000, "boot ok"⟩]⟩,
              [.GetLogs "500" "1500" "NA"]) := by
  refine ⟨?_, by decide, by decide⟩
  unfold Server.GetLogs
  simp only
  split_ifs with h
  · exact ⟨rfl, rfl⟩
  · cases s.store.GetLogs (r.Query.Get "start_date") (r.Query.Get "end_date")
      (r.Query.Get "region") <;> rfl

/-! ## Time codec -/

/-- C3. The tool describes its arguments as `Month (1-12)`, `Day (1-31)` and
`Time (HH:MM:SS)`, but `ToEpoch` appends `:00Z` to the time and parses two-digit
months and days: for year 2024, month 1, day 1 and time `00:00:00` it composes
`2024-1-1T00:00:00:00Z` and answers 400; with zero-padded month and day and the
time `00:00:00` it still answers 400; only a time given as `HH:MM` reaches
`epoch_ms` 1704067200000. -/
theorem ToEpoch_documented_input_rejected (s : Server) :
    s.ToEpoch ⟨"year=2024&month=1&day=1&time=00:00:00"⟩
        = ⟨400, .failure "Invalid date format: "⟩
      ∧ s.ToEpoch ⟨"year=2024&month=01&day=01&time=00:00:00"⟩
        = ⟨400, .failure "Invalid date format: "⟩
      ∧ s.ToEpoch ⟨"year=2024&month=01&day=01&time=00:00"⟩
        = ⟨200, .epoch 1704067200000 "2024-01-01T00:00:00Z"⟩ := by
  have h : ∀ r, s.ToEpoch r = (Server.mk exampleDb.toStore).ToEpoch r := fun _ => rfl
  rw [h, h, h]
  decide

/-- C4, counterexample: on a host whose local zone is five hours west of UTC,
`ToReadable(1704067200000)` has the readable field `2023-12-31T19:00:00-05:00`,
not `2024-01-01T00:00:00Z`, which a host in UTC returns for the same argument. -/
theorem ToReadable_local_zone_counterexample :
    (Server.mk exampleDb.toStore).ToReadable (FixedZone (-18000)) ⟨"epoch_ms=1704067200000"⟩
        = ⟨200, .readable 1704067200000 "2023-12-31T19:00:00-05:00"
            "2024-01-01 00:00:00 +0000 UTC"⟩
      ∧ (Server.mk exampleDb.toStore).ToReadable UTC ⟨"epoch_ms=1704067200000"⟩
        ≠ (Server.mk exampleDb.toStore).ToReadable (FixedZone (-18000))
            ⟨"epoch_ms=1704067200000"⟩ := by
  decide

theorem UnixMilli_fields (loc : Location) (ms : Int) :
    (UnixMilli loc ms).sec = ms / 1000 ∧ (UnixMilli loc ms).nsec = ms % 1000 * 1000000
      ∧ (UnixMilli loc ms).loc = loc := by
  unfold UnixMilli Unix
  by_cases h : 0 ≤ ms
  · have h1 : ms.tdiv 1000 = ms / 1000 := Int.tdiv_eq_ediv h (by norm_num)
    have h2 : ms.tmod 1000 = ms % 1000 := Int.tmod_eq_emod h (by norm_num)
    rw [h1, h2]
    have h3 : ¬ (ms % 1000 * 1000000 < 0 ∨ 1000000000 ≤ ms % 1000 * 1000000) := by omega
    rw [if_neg h3]
    exact ⟨rfl, rfl, rfl⟩
  · obtain ⟨m, rfl⟩ : ∃ m : Int, ms = -m := ⟨-ms, by omega⟩
    have hm : 0 ≤ m := by omega
    have h1 : (-m).tdiv 1000 = -(m / 1000) := by
      rw [Int.neg_tdiv, Int.tdiv_eq_ediv hm (by norm_num)]
    have h2 : (-m).tmod 1000 = -(m % 1000) := by
      have := Int.tmod_add_tdiv (-m) 1000
      rw [h1] at this
      omega
    rw [h1, h2]
    by_cases h0 : m % 1000 = 0
    · have h3 : ¬ (-(m % 1000) * 1000000 < 0 ∨ 1000000000 ≤ -(m % 1000) * 1000000) := by omega
      rw [if_neg h3]
      refine ⟨?_, ?_, rfl⟩ <;> simp only <;> omega
    · have h3 : (-(m % 1000) * 1000000 < 0 ∨ 1000000000 ≤ -(m % 1000) * 1000000) := by omega
      rw [if_pos h3]
      have h4 : (-(m % 1000) * 1000000).tdiv 1000000000 = 0 := by
        have e : -(m % 1000) * 1000000 = -((m % 1000) * 1000000) := by ring
        rw [e, Int.neg_tdiv, Int.tdiv_eq_ediv (by omega) (by norm_num)]
        omega
      rw [h4]
      simp only
      have h5 : -(m % 1000) * 1000000 - 0 * 1000000000 < 0 := by omega
      rw [if_pos h5]
      refine ⟨?_, ?_, rfl⟩ <;> simp only <;> omega

theorem intLiteral?_ne_empty (text : String) (ms : Int)
    (ht : intLiteral? text.toList = some ms) : text ≠ "" := by
  intro h
  subst h
  have h0 : intLiteral? "".toList = none := by decide
  rw [h0] at ht
  exact absurd ht (by simp)

/-- C4 (amended). For every request whose `epoch_ms` is the decimal text of a
64-bit integer and for every local zone of the host, `ToReadable` succeeds and
echoes `epoch_ms`; its readable field is the RFC3339 rendering of that instant
in the local zone of the host: the date and clock of the second
`floor(ms / 1000)` shifted by the zone offset in force, followed by that
offset (`Z` only for offset zero); its utc field is the rendering in UTC, the
same on every host: the date and clock of that second, the milliseconds, and
`+0000 UTC`.  On a host in UTC `ToReadable(1704067200000)` returns the readable
field `2024-01-01T00:00:00Z`. -/
theorem ToReadable_total (s : Server) (loc : Location) (r : Request) (text : String) (ms : Int)
    (hq : r.Query.Get "epoch_ms" = text) (ht : intLiteral? text.toList = some ms)
    (hr : isInt64 ms) :
    s.ToReadable loc r
        = ⟨StatusOK, .readable ms
            (String.mk (formatDateTime (absCivil (ms / 1000 + loc.lookup (ms / 1000)
              + unixToAbsolute)) 'T' ++ formatZone (loc.lookup (ms / 1000))))
            (String.mk (formatDateTime (absCivil (ms / 1000 + unixToAbsolute)) ' '
              ++ formatNano (ms % 1000 * 1000000) ++ " +0000 UTC".toList))⟩
      ∧ s.ToReadable loc r
        = ⟨StatusOK, .readable ms (UnixMilli loc ms).FormatRFC3339
            (UnixMilli loc ms).StringUTC⟩
      ∧ s.ToReadable UTC ⟨"epoch_ms=1704067200000"⟩
        = ⟨200, .readable 1704067200000 "2024-01-01T00:00:00Z"
            "2024-01-01 00:00:00 +0000 UTC"⟩ := by
  have hs : ∀ l r, s.ToReadable l r = (Server.mk exampleDb.toStore).ToReadable l r :=
    fun _ _ => rfl
  have hne := intLiteral?_ne_empty text ms ht
  obtain ⟨h1, h2, h3⟩ := UnixMilli_fields loc ms
  have hmain : s.ToReadable loc r
      = ⟨StatusOK, .readable ms (UnixMilli loc ms).FormatRFC3339
          (UnixMilli loc ms).StringUTC⟩ := by
    unfold Server.ToReadable
    simp only [hq, hne, if_false, ParseInt, ht, hr, if_true]
  refine ⟨?_, hmain, by rw [hs]; decide⟩
  rw [hmain]
  simp only [Time.FormatRFC3339, Time.StringUTC, Time.UTC, Time.civil, Time.offset, UTC, h1,
    h2, h3, add_zero]

/-- C4, witness: the request `epoch_ms=-1` on a host five hours west of UTC: the
readable field is local, the utc field is `1969-12-31 23:59:59.999 +0000 UTC`. -/
theorem ToReadable_total_witness :
    (Server.mk exampleDb.toStore).ToReadable (FixedZone (-18000)) ⟨"epoch_ms=-1"⟩
        = ⟨StatusOK, .readable (-1) "1969-12-31T18:59:59-05:00"
            "1969-12-31 23:59:59.999 +0000 UTC"⟩ := by
  rw [(ToReadable_total (Server.mk exampleDb.toStore) (FixedZone (-18000)) ⟨"epoch_ms=-1"⟩
    "-1" (-1) (by decide) (by decide) (by decide)).1]
  decide

/-! ## Calendar arithmetic -/

theorem isLeap_iff (y : Int) : isLeap y = true ↔ (y % 4 = 0 ∧ (y % 100 ≠ 0 ∨ y % 400 = 0)) := by
  simp [isLeap]

theorem absYearDay_parts (a b c e k : Int) (hb : 0 ≤ b ∧ b ≤ 3) (hc : 0 ≤ c ∧ c ≤ 24)
    (he : 0 ≤ e ∧ e ≤ 3) (hk : 0 ≤ k)
    (hk2 : k < if e = 3 ∧ (c ≠ 24 ∨ b = 3) then 366 else 365) :
    absYearDay (146097 * a + 36524 * b + 1461 * c + 365 * e + k)
      = (400 * a + 100 * b + 4 * c + e + absoluteZeroYear, k) := by
  have hk3 : k ≤ 365 := by split_ifs at hk2 <;> omega
  have hk4 : e = 3 → c = 24 → b ≠ 3 → k < 365 := by
    intro h1 h2 h3
    rw [if_neg (by omega)] at hk2
    exact hk2
  have hk5 : e ≠ 3 → k < 365 := by
    intro h1
    rw [if_neg (by omega)] at hk2
    exact hk2
  clear hk2
  simp only [absYearDay]
  have h1 : (146097 * a + 36524 * b + 1461 * c + 365 * e + k) / 146097 = a := by omega
  rw [h1]
  have e1 : 146097 * a + 36524 * b + 1461 * c + 365 * e + k - 146097 * a
      = 36524 * b + (1461 * c + 365 * e + k) := by ring
  rw [e1]
  have h2 : (36524 * b + (1461 * c + 365 * e + k)) / 36524
      - (36524 * b + (1461 * c + 365 * e + k)) / 36524 / 4 = b := by
    have hr : 1461 * c + 365 * e + k ≤ 36524 := by omega
    have hr2 : b ≠ 3 → 1461 * c + 365 * e + k < 36524 := by
      intro h3
      by_cases h4 : e = 3 ∧ c = 24
      · have := hk4 h4.1 h4.2 h3
        omega
      · omega
    generalize 1461 * c + 365 * e + k = r at *
    obtain rfl | rfl | rfl | rfl : b = 0 ∨ b = 1 ∨ b = 2 ∨ b = 3 := by omega
    all_goals omega
  rw [h2]
  have e2 : 36524 * b + (1461 * c + 365 * e + k) - 36524 * b = 1461 * c + (365 * e + k) := by ring
  rw [e2]
  have h3 : (1461 * c + (365 * e + k)) / 1461 = c := by
    have hr : 365 * e + k < 1461 := by
      by_cases h4 : e = 3
      · omega
      · have := hk5 h4
        omega
    generalize 365 * e + k = r at *
    omega
  rw [h3]
  have e3 : 1461 * c + (365 * e + k) - 1461 * c = 365 * e + k := by ring
  rw [e3]
  have h4 : (365 * e + k) / 365 - (365 * e + k) / 365 / 4 = e := by
    by_cases h4 : e = 3
    · subst h4; omega
    · have := hk5 h4
      omega
  rw [h4]
  ext
  · rfl
  · simp only; omega

theorem daysSinceEpoch_parts (a b c e : Int) (hb : 0 ≤ b ∧ b ≤ 3) (hc : 0 ≤ c ∧ c ≤ 24)
    (he : 0 ≤ e ∧ e ≤ 3) :
    daysSinceEpoch (400 * a + 100 * b + 4 * c + e + absoluteZeroYear)
      = 146097 * a + 36524 * b + 1461 * c + 365 * e := by
  simp only [daysSinceEpoch]
  have e0 : 400 * a + 100 * b + 4 * c + e + absoluteZeroYear - absoluteZeroYear
      = 400 * a + (100 * b + 4 * c + e) := by ring
  rw [e0]
  have h1 : (400 * a + (100 * b + 4 * c + e)) / 400 = a := by omega
  rw [h1]
  have e1 : 400 * a + (100 * b + 4 * c + e) - 400 * a = 100 * b + (4 * c + e) := by ring
  rw [e1]
  have h2 : (100 * b + (4 * c + e)) / 100 = b := by omega
  rw [h2]
  have e2 : 100 * b + (4 * c + e) - 100 * b = 4 * c + e := by ring
  rw [e2]
  have h3 : (4 * c + e) / 4 = c := by omega
  rw [h3]
  omega

theorem isLeap_parts (a b c e : Int) (hb : 0 ≤ b ∧ b ≤ 3) (hc : 0 ≤ c ∧ c ≤ 24)
    (he : 0 ≤ e ∧ e ≤ 3) :
    isLeap (400 * a + 100 * b + 4 * c + e + absoluteZeroYear) = true
      ↔ (e = 3 ∧ (c ≠ 24 ∨ b = 3)) := by
  rw [isLeap_iff]
  simp only [absoluteZeroYear]
  omega

theorem absYearDay_split (d : Int) (hd : 0 ≤ d) :
    ∃ a b c e k : Int, (0 ≤ b ∧ b ≤ 3) ∧ (0 ≤ c ∧ c ≤ 24) ∧ (0 ≤ e ∧ e ≤ 3) ∧ 0 ≤ k
      ∧ (k < if e = 3 ∧ (c ≠ 24 ∨ b = 3) then 366 else 365)
      ∧ d = 146097 * a + 36524 * b + 1461 * c + 365 * e + k ∧ 0 ≤ a
      ∧ absYearDay d = (400 * a + 100 * b + 4 * c + e + absoluteZeroYear, k) := by
  have ha : 0 ≤ d / 146097 := by omega
  have h1 : 0 ≤ d - 146097 * (d / 146097) ∧ d - 146097 * (d / 146097) < 146097 := by omega
  generalize hd1 : d - 146097 * (d / 146097) = d1 at h1
  have hq : 0 ≤ d1 / 36524 ∧ d1 / 36524 ≤ 4 := by omega
  have hb : 0 ≤ d1 / 36524 - d1 / 36524 / 4 ∧ d1 / 36524 - d1 / 36524 / 4 ≤ 3 := by omega
  have hb4 : d1 / 36524 = 4 → d1 / 36524 - d1 / 36524 / 4 = 3 := by omega
  have hb3 : d1 / 36524 ≠ 4 → d1 / 36524 - d1 / 36524 / 4 = d1 / 36524 := by omega
  have h2 : 0 ≤ d1 - 36524 * (d1 / 36524 - d1 / 36524 / 4)
      ∧ d1 - 36524 * (d1 / 36524 - d1 / 36524 / 4) ≤ 36524 := by
    by_cases h4 : d1 / 36524 = 4
    · rw [hb4 h4]; omega
    · rw [hb3 h4]; omega
  have h2b : d1 / 36524 - d1 / 36524 / 4 ≠ 3 →
      d1 - 36524 * (d1 / 36524 - d1 / 36524 / 4) < 36524 := by
    intro hne
    by_cases h4 : d1 / 36524 = 4
    · exact absurd (hb4 h4) hne
    · rw [hb3 h4]; omega
  generalize hbb : d1 / 36524 - d1 / 36524 / 4 = b at hb h2 h2b
  clear hb4 hb3 hq
  generalize hd2 : d1 - 36524 * b = d2 at h2 h2b
  have hc : 0 ≤ d2 / 1461 ∧ d2 / 1461 ≤ 24 := by omega
  have h3 : 0 ≤ d2 - 1461 * (d2 / 1461) ∧ d2 - 1461 * (d2 / 1461) ≤ 1460 := by omega
  have h3b : d2 / 1461 = 24 → b ≠ 3 → d2 - 1461 * (d2 / 1461) < 1460 := by
    intro h24 hne
    have := h2b hne
    omega
  generalize hcc : d2 / 1461 = c at hc h3 h3b
  generalize hd3 : d2 - 1461 * c = d3 at h3 h3b
  have hf : 0 ≤ d3 / 365 ∧ d3 / 365 ≤ 4 := by omega
  have he : 0 ≤ d3 / 365 - d3 / 365 / 4 ∧ d3 / 365 - d3 / 365 / 4 ≤ 3 := by omega
  have hk : 0 ≤ d3 - 365 * (d3 / 365 - d3 / 365 / 4)
      ∧ d3 - 365 * (d3 / 365 - d3 / 365 / 4) ≤ 365 := by omega
  have hk2 : d3 / 365 - d3 / 365 / 4 ≠ 3 → d3 - 365 * (d3 / 365 - d3 / 365 / 4) < 365 := by
    omega
  have hk3 : d3 - 365 * (d3 / 365 - d3 / 365 / 4) = 365 → d3 = 1460 := by omega
  generalize hee : d3 / 365 - d3 / 365 / 4 = e at he hk hk2 hk3
  refine ⟨d / 146097, b, c, e, d3 - 365 * e, hb, hc, he, hk.1, ?_, by omega, ha, ?_⟩
  · split_ifs with hcond
    · omega
    · by_cases he3 : e = 3
      · have hcb : c = 24 ∧ b ≠ 3 := by
          constructor
          · by_contra h; exact hcond ⟨he3, Or.inl h⟩
          · intro h; exact hcond ⟨he3, Or.inr h⟩
        have := h3b hcb.1 hcb.2
        by_contra hge
        have : d3 - 365 * e = 365 := by omega
        have := hk3 this
        omega
      · exact hk2 he3
  · simp only [absYearDay]
    rw [hd1, hbb, hd2, hcc, hd3, hee]

set_option maxRecDepth 100000 in
theorem monthDay_spec_all : ∀ leap : Bool, ∀ k : Fin 366,
    k.val < (if leap = true then 366 else 365) →
      1 ≤ (monthDay leap k.val).1 ∧ (monthDay leap k.val).1 ≤ 12
      ∧ 1 ≤ (monthDay leap k.val).2
      ∧ (monthDay leap k.val).2
          ≤ (if (monthDay leap k.val).1 = 2 ∧ leap = true then 29
             else daysBefore (monthDay leap k.val).1 - daysBefore ((monthDay leap k.val).1 - 1))
      ∧ (monthDay leap k.val).2 ≤ 31
      ∧ daysBefore ((monthDay leap k.val).1 - 1)
          + (if leap = true ∧ 3 ≤ (monthDay leap k.val).1 then 1 else 0)
          + (monthDay leap k.val).2 = k.val + 1 := by
  decide

theorem monthDay_spec (leap : Bool) (k : Nat) (hk : k < (if leap = true then 366 else 365)) :
    1 ≤ (monthDay leap k).1 ∧ (monthDay leap k).1 ≤ 12
      ∧ 1 ≤ (monthDay leap k).2
      ∧ (monthDay leap k).2
          ≤ (if (monthDay leap k).1 = 2 ∧ leap = true then 29
             else daysBefore (monthDay leap k).1 - daysBefore ((monthDay leap k).1 - 1))
      ∧ (monthDay leap k).2 ≤ 31
      ∧ daysBefore ((monthDay leap k).1 - 1)
          + (if leap = true ∧ 3 ≤ (monthDay leap k).1 then 1 else 0)
          + (monthDay leap k).2 = k + 1 := by
  have hk2 : k < 366 := by split_ifs at hk <;> omega
  exact monthDay_spec_all leap ⟨k, hk2⟩ hk

theorem absYearDay_spec (d : Int) (hd : 0 ≤ d) :
    daysSinceEpoch (absYearDay d).1 + (absYearDay d).2 = d
      ∧ 0 ≤ (absYearDay d).2 ∧ (absYearDay d).2 < yearLen (absYearDay d).1 := by
  obtain ⟨a, b, c, e, k, hb, hc, he, hk, hk2, hsum, _, heq⟩ := absYearDay_split d hd
  rw [heq]
  simp only
  rw [daysSinceEpoch_parts a b c e hb hc he]
  refine ⟨by omega, hk, ?_⟩
  unfold yearLen
  by_cases hl : e = 3 ∧ (c ≠ 24 ∨ b = 3)
  · rw [if_pos hl] at hk2
    rw [if_pos ((isLeap_parts a b c e hb hc he).2 hl)]
    exact hk2
  · rw [if_neg hl] at hk2
    rw [if_neg (fun h => hl ((isLeap_parts a b c e hb hc he).1 h))]
    exact hk2

theorem absYearDay_daysSinceEpoch (y k : Int) (hk : 0 ≤ k) (hk2 : k < yearLen y) :
    absYearDay (daysSinceEpoch y + k) = (y, k) := by
  have hb : 0 ≤ (y - absoluteZeroYear) % 400 / 100 ∧ (y - absoluteZeroYear) % 400 / 100 ≤ 3 := by
    omega
  have hc : 0 ≤ (y - absoluteZeroYear) % 100 / 4 ∧ (y - absoluteZeroYear) % 100 / 4 ≤ 24 := by
    omega
  have he : 0 ≤ (y - absoluteZeroYear) % 4 ∧ (y - absoluteZeroYear) % 4 ≤ 3 := by omega
  have hy : y = 400 * ((y - absoluteZeroYear) / 400) + 100 * ((y - absoluteZeroYear) % 400 / 100)
      + 4 * ((y - absoluteZeroYear) % 100 / 4) + (y - absoluteZeroYear) % 4
      + absoluteZeroYear := by omega
  generalize (y - absoluteZeroYear) / 400 = a at hy
  generalize (y - absoluteZeroYear) % 400 / 100 = b at hy hb
  generalize (y - absoluteZeroYear) % 100 / 4 = c at hy hc
  generalize (y - absoluteZeroYear) % 4 = e at hy he
  subst hy
  rw [daysSinceEpoch_parts a b c e hb hc he]
  apply absYearDay_parts a b c e k hb hc he hk
  unfold yearLen at hk2
  by_cases hl : e = 3 ∧ (c ≠ 24 ∨ b = 3)
  · rw [if_pos hl]
    rw [if_pos ((isLeap_parts a b c e hb hc he).2 hl)] at hk2
    exact hk2
  · rw [if_neg hl]
    rw [if_neg (fun h => hl ((isLeap_parts a b c e hb hc he).1 h))] at hk2
    exact hk2

theorem dayOfYear_bounds (year : Int) (month day : Nat) (hm : 1 ≤ month ∧ month ≤ 12)
    (hd : 1 ≤ day ∧ day ≤ daysIn month year) :
    0 ≤ dayOfYear year month day ∧ dayOfYear year month day < yearLen year := by
  unfold dayOfYear yearLen daysIn at *
  obtain ⟨hm1, hm2⟩ := hm
  by_cases hl : isLeap year = true
  · simp only [hl, and_true, true_and, if_true] at *
    interval_cases month <;> simp [daysBefore] at * <;> omega
  · simp only [hl, and_false, false_and, if_false] at *
    interval_cases month <;> simp [daysBefore] at * <;> omega

/-- Validity of the fields computed by `absCivil`, and their recombination. -/
theorem absCivil_spec (abs : Int) (h : 0 ≤ abs) :
    (1 ≤ (absCivil abs).month ∧ (absCivil abs).month ≤ 12)
      ∧ (1 ≤ (absCivil abs).day ∧ (absCivil abs).day ≤ daysIn (absCivil abs).month (absCivil abs).year)
      ∧ (absCivil abs).day ≤ 31
      ∧ (absCivil abs).hour < 24 ∧ (absCivil abs).min < 60 ∧ (absCivil abs).sec < 60
      ∧ dateUnix (absCivil abs).year (absCivil abs).month (absCivil abs).day (absCivil abs).hour
          (absCivil abs).min (absCivil abs).sec = abs - unixToAbsolute := by
  have hd : 0 ≤ abs / secondsPerDay := by unfold secondsPerDay; omega
  obtain ⟨h1, h2, h3⟩ := absYearDay_spec (abs / secondsPerDay) hd
  have hk : (absYearDay (abs / secondsPerDay)).2.toNat
      < (if isLeap (absYearDay (abs / secondsPerDay)).1 = true then 366 else 365) := by
    unfold yearLen at h3
    split_ifs at h3 ⊢ <;> omega
  obtain ⟨m1, m2, m3, m4, m5, m6⟩ := monthDay_spec _ _ hk
  simp only [absCivil]
  generalize hmd : monthDay (isLeap (absYearDay (abs / secondsPerDay)).1)
    (absYearDay (abs / secondsPerDay)).2.toNat = md at *
  generalize hyd : absYearDay (abs / secondsPerDay) = yd at *
  have hs : (abs % secondsPerDay).toNat < 86400 := by unfold secondsPerDay; omega
  have hs2 : ((abs % secondsPerDay).toNat : Int) = abs % secondsPerDay := by
    apply Int.toNat_of_nonneg; unfold secondsPerDay; omega
  generalize (abs % secondsPerDay).toNat = s at *
  refine ⟨⟨m1, m2⟩, ⟨m3, ?_⟩, m5, by omega, by omega, by omega, ?_⟩
  · unfold daysIn
    exact m4
  · unfold dateUnix dayOfYear
    have e6 : ((daysBefore (md.1 - 1) : Nat) : Int)
        + (if isLeap yd.1 = true ∧ 3 ≤ md.1 then (1 : Int) else 0) + ((md.2 : Int) - 1)
        = yd.2 := by
      have : ((daysBefore (md.1 - 1) + (if isLeap yd.1 = true ∧ 3 ≤ md.1 then 1 else 0)
          + md.2 : Nat) : Int) = ((yd.2.toNat + 1 : Nat) : Int) := by rw [m6]
      have h0 : (yd.2.toNat : Int) = yd.2 := Int.toNat_of_nonneg h2
      push_cast at this
      split_ifs at this ⊢ <;> omega
    rw [e6]
    have e7 : ((s / 3600 : Nat) : Int) * 3600 + ((s % 3600 / 60 : Nat) : Int) * 60
        + ((s % 60 : Nat) : Int) = (s : Int) := by omega
    rw [e7, h1, hs2]
    unfold secondsPerDay
    omega

/-! ## Formatting and parsing -/

theorem digit_facts : ∀ k : Fin 10,
    isDigit (Char.ofNat (48 + k.val)) = true ∧ digitVal (Char.ofNat (48 + k.val)) = k.val := by
  decide

theorem isDigit_digitChar (d : Nat) : isDigit (digitChar d) = true :=
  (digit_facts ⟨d % 10, Nat.mod_lt _ (by norm_num)⟩).1

theorem digitVal_digitChar (d : Nat) : digitVal (digitChar d) = d % 10 :=
  (digit_facts ⟨d % 10, Nat.mod_lt _ (by norm_num)⟩).2

theorem appendInt_two (n : Nat) (h : n < 100) :
    appendInt (n : Int) 2 = [digitChar (n / 10), digitChar (n % 10)] := by
  unfold appendInt
  have h0 : ¬ ((n : Int) < 0) := by omega
  simp [h0, h]

theorem appendInt_four (n : Nat) (h : n < 10000) :
    appendInt (n : Int) 4 = [digitChar (n / 1000), digitChar (n / 100 % 10),
      digitChar (n / 10 % 10), digitChar (n % 10)] := by
  unfold appendInt
  have h0 : ¬ ((n : Int) < 0) := by omega
  simp [h0, h]

theorem getnum_appendInt (n : Nat) (h : n < 100) (rest : List Char) (isFixed : Bool) :
    getnum (appendInt (n : Int) 2 ++ rest) isFixed = some (n, rest) := by
  rw [appendInt_two n h]
  simp only [List.cons_append, List.nil_append, getnum, isDigit_digitChar, if_true,
    digitVal_digitChar]
  congr 2
  omega

theorem getyear_appendInt (n : Nat) (h : n < 10000) (rest : List Char) :
    getyear (appendInt (n : Int) 4 ++ rest) = some (n, rest) := by
  rw [appendInt_four n h]
  simp only [List.cons_append, List.nil_append, getyear, isDigit_digitChar, Bool.and_self,
    if_true, digitsVal, List.foldl_cons, List.foldl_nil, digitVal_digitChar]
  congr 2
  omega

theorem parseDate_format (y m d : Nat) (hy : y < 10000) (hm : 1 ≤ m ∧ m ≤ 12) (hd : d < 100)
    (rest : List Char) :
    parseDate (appendInt (y : Int) 4 ++ ('-' :: (appendInt (m : Int) 2
        ++ ('-' :: (appendInt (d : Int) 2 ++ rest)))))
      = some ((y, m, d), rest) := by
  have hm0 : ¬ (m = 0 ∨ 12 < m) := by omega
  simp only [parseDate, getyear_appendInt y hy, expect, if_true,
    getnum_appendInt m (by omega), hm0, if_false, getnum_appendInt d hd]

theorem parseClock_format (h m s : Nat) (hh : h < 24) (hm : m < 60) (hs : s < 60)
    (rest : List Char) :
    parseClock (appendInt (h : Int) 2 ++ (':' :: (appendInt (m : Int) 2
        ++ (':' :: (appendInt (s : Int) 2 ++ rest)))))
      = some ((h, m, s), rest) := by
  have h1 : ¬ 24 ≤ h := by omega
  have h2 : ¬ 60 ≤ m := by omega
  have h3 : ¬ 60 ≤ s := by omega
  simp only [parseClock, getnum_appendInt h (by omega), h1, if_false, expect, if_true,
    getnum_appendInt m (by omega), h2, getnum_appendInt s (by omega), h3]

theorem getfrac_of_head (c : Char) (rest : List Char) (h1 : c ≠ '.') (h2 : c ≠ ',') :
    getfrac (c :: rest) = (0, c :: rest) := by
  cases rest with
  | nil => rfl
  | cons c1 rest2 => simp [getfrac, h1, h2]

theorem formatZone_head (off : Int) :
    ∃ c rest, formatZone off = c :: rest ∧ (c = 'Z' ∨ c = '+' ∨ c = '-') := by
  unfold formatZone
  simp only
  split_ifs with h0 h1
  · exact ⟨'Z', [], rfl, Or.inl rfl⟩
  · exact ⟨'-', appendInt (((off.tdiv 60).natAbs / 60 : Nat) : Int) 2
      ++ ':' :: appendInt (((off.tdiv 60).natAbs % 60 : Nat) : Int) 2,
      by simp only [List.cons_append, List.nil_append, List.append_assoc],
      Or.inr (Or.inr rfl)⟩
  · exact ⟨'+', appendInt (((off.tdiv 60).natAbs / 60 : Nat) : Int) 2
      ++ ':' :: appendInt (((off.tdiv 60).natAbs % 60 : Nat) : Int) 2,
      by simp only [List.cons_append, List.nil_append, List.append_assoc],
      Or.inr (Or.inl rfl)⟩

theorem getfrac_formatZone (off : Int) : getfrac (formatZone off) = (0, formatZone off) := by
  obtain ⟨c, rest, h, hc⟩ := formatZone_head off
  rw [h]
  apply getfrac_of_head
  · rcases hc with rfl | rfl | rfl <;> decide
  · rcases hc with rfl | rfl | rfl <;> decide

theorem getzone_formatZone (off : Int) (h60 : off % 60 = 0)
    (hr : -86400 < off ∧ off < 86400) : getzone (formatZone off) = some (off, []) := by
  unfold formatZone
  by_cases h0 : off = 0
  · subst h0; rfl
  · rw [if_neg h0]
    simp only
    have hmm : (off.tdiv 60).natAbs % 60 < 100 := by omega
    by_cases hneg : off < 0
    · obtain ⟨m, rfl⟩ : ∃ m : Int, off = -m := ⟨-off, by omega⟩
      have hm : 0 ≤ m := by omega
      have ht : (-m).tdiv 60 = -(m / 60) := by
        rw [Int.neg_tdiv, Int.tdiv_eq_ediv hm (by norm_num)]
      rw [ht]
      have hz : -(m / 60) < 0 := by omega
      rw [if_pos hz]
      have hhh : (-(m / 60)).natAbs / 60 < 100 := by omega
      rw [appendInt_two _ hhh, appendInt_two _ (by omega)]
      simp only [List.cons_append, List.nil_append, getzone, getnum, isDigit_digitChar,
        if_true, digitVal_digitChar]
      have c1 : ¬ (24 < (-(m / 60)).natAbs / 60 / 10 % 10 * 10 + (-(m / 60)).natAbs / 60 % 10 % 10
          ∨ 60 < (-(m / 60)).natAbs % 60 / 10 % 10 * 10 + (-(m / 60)).natAbs % 60 % 10 % 10) := by
        omega
      simp only [c1, if_false, show ('-' : Char) ≠ '+' by decide,
        show ('-' : Char) ≠ 'Z' by decide, if_true]
      congr 2
      omega
    · have hm : 0 ≤ off := by omega
      have ht : off.tdiv 60 = off / 60 := Int.tdiv_eq_ediv hm (by norm_num)
      rw [ht]
      have hz : ¬ off / 60 < 0 := by omega
      rw [if_neg hz]
      have hhh : (off / 60).natAbs / 60 < 100 := by omega
      rw [appendInt_two _ hhh, appendInt_two _ (by omega)]
      simp only [List.cons_append, List.nil_append, getzone, getnum, isDigit_digitChar,
        if_true, digitVal_digitChar]
      have c1 : ¬ (24 < (off / 60).natAbs / 60 / 10 % 10 * 10 + (off / 60).natAbs / 60 % 10 % 10
          ∨ 60 < (off / 60).natAbs % 60 / 10 % 10 * 10 + (off / 60).natAbs % 60 % 10 % 10) := by
        omega
      simp only [c1, if_false, if_true, show ('+' : Char) ≠ 'Z' by decide]
      congr 2
      omega

/-- Reading back, with the layout RFC3339, the rendering of an absolute time whose
year has four digits, in a zone whose offset is a whole number of minutes. -/
theorem Parse_Format (abs off : Int) (h : 0 ≤ abs)
    (hy : 0 ≤ (absCivil abs).year ∧ (absCivil abs).year ≤ 9999)
    (h60 : off % 60 = 0) (hr : -86400 < off ∧ off < 86400) :
    ∃ t, Parse? .RFC3339 (formatDateTime (absCivil abs) 'T' ++ formatZone off) = some t
      ∧ t.sec = abs - unixToAbsolute - off ∧ t.nsec = 0 := by
  obtain ⟨hm, hd, hd31, hh, hmi, hs, hu⟩ := absCivil_spec abs h
  generalize absCivil abs = c at *
  obtain ⟨y, hyy⟩ : ∃ y : Nat, c.year = (y : Int) := ⟨c.year.toNat, by omega⟩
  have hy4 : y < 10000 := by omega
  have e1 : formatDateTime c 'T' ++ formatZone off
      = appendInt (y : Int) 4 ++ ('-' :: (appendInt (c.month : Int) 2
          ++ ('-' :: (appendInt (c.day : Int) 2 ++ ('T' :: (appendInt (c.hour : Int) 2
          ++ (':' :: (appendInt (c.min : Int) 2 ++ (':' :: (appendInt (c.sec : Int) 2
          ++ formatZone off)))))))))) := by
    simp only [formatDateTime, hyy, List.append_assoc, List.cons_append, List.nil_append]
  rw [e1]
  unfold Parse?
  rw [parseDate_format y c.month c.day hy4 hm (by omega)]
  simp only [expect, if_true]
  rw [parseClock_format c.hour c.min c.sec hh hmi hs]
  simp only [getfrac_formatZone, parseZone, getzone_formatZone off h60 hr]
  have hday : ¬ (c.day < 1 ∨ daysIn c.month (y : Int) < c.day) := by
    rw [← hyy]; omega
  simp only [ne_eq, not_true_eq_false, if_false, hday]
  refine ⟨_, rfl, ?_, rfl⟩
  simp only
  rw [← hyy, hu]
theorem digitVal_le (c : Char) (h : isDigit c = true) : digitVal c ≤ 9 := by
  simp only [isDigit, Bool.and_eq_true, decide_eq_true_eq] at h
  unfold digitVal
  omega

theorem getyear_some (v r : List Char) (y : Nat) (h : getyear v = some (y, r)) :
    y < 10000 ∧ r <:+ v := by
  unfold getyear at h
  split at h
  · rename_i a b c d rest
    split_ifs at h with hd
    simp only [Bool.and_eq_true] at hd
    simp only [Option.some.injEq, Prod.mk.injEq] at h
    obtain ⟨rfl, rfl⟩ := h
    have ha := digitVal_le a hd.1.1.1
    have hb := digitVal_le b hd.1.1.2
    have hc := digitVal_le c hd.1.2
    have hdd := digitVal_le d hd.2
    refine ⟨?_, ⟨[a, b, c, d], by simp⟩⟩
    simp only [digitsVal, List.foldl_cons, List.foldl_nil]
    omega
  · exact absurd h (by simp)

theorem getnum_some (v r : List Char) (isFixed : Bool) (n : Nat)
    (h : getnum v isFixed = some (n, r)) : r <:+ v := by
  cases v with
  | nil => simp only [getnum, reduceCtorEq] at h
  | cons c0 rest =>
    cases rest with
    | nil =>
      simp only [getnum] at h
      split_ifs at h
      all_goals simp only [Option.some.injEq, Prod.mk.injEq, reduceCtorEq] at h
      obtain ⟨_, rfl⟩ := h
      exact ⟨[c0], rfl⟩
    | cons c1 rest2 =>
      simp only [getnum] at h
      split_ifs at h <;> simp only [Option.some.injEq, Prod.mk.injEq, reduceCtorEq] at h
        <;> obtain ⟨_, rfl⟩ := h
      · exact ⟨[c0, c1], rfl⟩
      · exact ⟨[c0], rfl⟩

theorem expect_some (c : Char) (v r : List Char) (h : expect c v = some r) : v = c :: r := by
  unfold expect at h
  split at h
  · exact absurd h (by simp)
  · split_ifs at h with hc
    simp only [Option.some.injEq] at h
    rw [hc, h]

theorem parseDate_some (v r : List Char) (y m d : Nat)
    (h : parseDate v = some ((y, m, d), r)) :
    y < 10000 ∧ (1 ≤ m ∧ m ≤ 12) ∧ r <:+ v := by
  unfold parseDate at h
  cases h1 : getyear v with
  | none => simp [h1] at h
  | some p1 =>
    obtain ⟨y1, v1⟩ := p1
    simp only [h1] at h
    cases h2 : expect '-' v1 with
    | none => simp [h2] at h
    | some v2 =>
      simp only [h2] at h
      cases h3 : getnum v2 true with
      | none => simp [h3] at h
      | some p3 =>
        obtain ⟨m1, v3⟩ := p3
        simp only [h3] at h
        split_ifs at h with hm
        cases h4 : expect '-' v3 with
        | none => simp [h4] at h
        | some v4 =>
          simp only [h4] at h
          cases h5 : getnum v4 true with
          | none => simp [h5] at h
          | some p5 =>
            obtain ⟨d1, v5⟩ := p5
            simp only [h5, Option.some.injEq, Prod.mk.injEq] at h
            obtain ⟨⟨rfl, rfl, rfl⟩, rfl⟩ := h
            obtain ⟨hy, s1⟩ := getyear_some v v1 y1 h1
            have s2 : v2 <:+ v1 := ⟨['-'], by rw [expect_some _ _ _ h2]; rfl⟩
            have s3 := getnum_some _ _ _ _ h3
            have s4 : v4 <:+ v3 := ⟨['-'], by rw [expect_some _ _ _ h4]; rfl⟩
            have s5 := getnum_some _ _ _ _ h5
            exact ⟨hy, by omega, s5.trans (s4.trans (s3.trans (s2.trans s1)))⟩

theorem parseClock_some (v r : List Char) (hh mi ss : Nat)
    (h : parseClock v = some ((hh, mi, ss), r)) :
    hh < 24 ∧ mi < 60 ∧ ss < 60 ∧ r <:+ v := by
  unfold parseClock at h
  cases h1 : getnum v false with
  | none => simp [h1] at h
  | some p1 =>
    obtain ⟨x1, v1⟩ := p1
    simp only [h1] at h
    split_ifs at h with c1
    cases h2 : expect ':' v1 with
    | none => simp [h2] at h
    | some v2 =>
      simp only [h2] at h
      cases h3 : getnum v2 true with
      | none => simp [h3] at h
      | some p3 =>
        obtain ⟨x3, v3⟩ := p3
        simp only [h3] at h
        split_ifs at h with c3
        cases h4 : expect ':' v3 with
        | none => simp [h4] at h
        | some v4 =>
          simp only [h4] at h
          cases h5 : getnum v4 true with
          | none => simp [h5] at h
          | some p5 =>
            obtain ⟨x5, v5⟩ := p5
            simp only [h5] at h
            split_ifs at h with c5
            simp only [Option.some.injEq, Prod.mk.injEq] at h
            obtain ⟨⟨rfl, rfl, rfl⟩, rfl⟩ := h
            have s1 := getnum_some _ _ _ _ h1
            have s2 : v2 <:+ v1 := ⟨[':'], by rw [expect_some _ _ _ h2]; rfl⟩
            have s3 := getnum_some _ _ _ _ h3
            have s4 : v4 <:+ v3 := ⟨[':'], by rw [expect_some _ _ _ h4]; rfl⟩
            have s5 := getnum_some _ _ _ _ h5
            exact ⟨by omega, by omega, by omega, s5.trans (s4.trans (s3.trans (s2.trans s1)))⟩
theorem Parse_epoch_some (v : List Char) (t : Time) (h : Parse? .epoch v = some t) :
    ∃ (y m d hh mi ss : Nat) (v3 : List Char), y < 10000 ∧ (1 ≤ m ∧ m ≤ 12)
      ∧ (1 ≤ d ∧ d ≤ daysIn m (y : Int)) ∧ hh < 24 ∧ mi < 60 ∧ ss < 60
      ∧ t.sec = dateUnix (y : Int) m d hh mi ss ∧ t.nsec = (getfrac v3).1
      ∧ v3 <:+ v ∧ (getfrac v3).2 = ['Z'] := by
  unfold Parse? at h
  cases h1 : parseDate v with
  | none => simp [h1] at h
  | some p1 =>
    obtain ⟨⟨y, m, d⟩, v1⟩ := p1
    simp only [h1] at h
    cases h2 : expect 'T' v1 with
    | none => simp [h2] at h
    | some v2 =>
      simp only [h2] at h
      cases h3 : parseClock v2 with
      | none => simp [h3] at h
      | some p3 =>
        obtain ⟨⟨hh, mi, ss⟩, v3⟩ := p3
        simp only [h3] at h
        cases h4 : parseZone .epoch (getfrac v3).2 with
        | none => simp [h4] at h
        | some p4 =>
          obtain ⟨zo, rest⟩ := p4
          simp only [h4] at h
          simp only [parseZone, Option.map_eq_some'] at h4
          obtain ⟨rest2, h5, h6⟩ := h4
          simp only [Prod.mk.injEq] at h6
          obtain ⟨rfl, rfl⟩ := h6
          simp only [if_true] at h
          split_ifs at h with c1 c2
          simp only [Option.some.injEq] at h
          subst h
          have hr : rest2 = [] := by simpa using c1
          subst hr
          obtain ⟨hy, hm, s1⟩ := parseDate_some _ _ _ _ _ h1
          obtain ⟨q1, q2, q3, s3⟩ := parseClock_some _ _ _ _ _ h3
          have s2 : v2 <:+ v1 := ⟨['T'], by rw [expect_some _ _ _ h2]; rfl⟩
          refine ⟨y, m, d, hh, mi, ss, v3, hy, hm, by omega, q1, q2, q3, by simp, rfl,
            s3.trans (s2.trans s1), expect_some _ _ _ h5⟩

theorem getfrac_zero (v3 X : List Char) (hs : v3 <:+ X ++ [':', '0', '0', 'Z'])
    (hz : (getfrac v3).2 = ['Z']) : (getfrac v3).1 = 0 := by
  unfold getfrac at hz ⊢
  split at hz
  · rename_i p c1 rest
    split_ifs at hz ⊢ with hc
    · exfalso
      simp only at hz
      have hrest : rest = rest.takeWhile isDigit ++ ['Z'] := by
        rw [← hz]; exact (List.takeWhile_append_dropWhile _ _).symm
      have hdig : ∀ c ∈ rest.takeWhile isDigit, isDigit c = true :=
        fun c hc => List.mem_takeWhile_imp hc
      generalize rest.takeWhile isDigit = ds at hrest hdig
      subst hrest
      have hsuf : ([':', '0', '0', 'Z'] : List Char) <:+ X ++ [':', '0', '0', 'Z'] :=
        List.suffix_append _ _
      rcases List.suffix_or_suffix_of_suffix hs hsuf with h1 | h1
      · have hlen := h1.length_le
        simp only [List.length_cons, List.length_append, List.length_nil] at hlen
        have hds : ds = [] ∨ ds.length = 1 := by
          rcases ds with _ | ⟨a, _ | ⟨b, l⟩⟩ <;> simp at hlen ⊢
        rcases hds with rfl | hds
        · simp [List.suffix_cons_iff] at h1
          rcases hc.1 with h | h <;> rw [h] at h1 <;> simp at h1
        · obtain ⟨a, rfl⟩ := List.length_eq_one.1 hds
          simp [List.suffix_cons_iff] at h1
          rcases hc.1 with h | h <;> rw [h] at h1 <;> simp at h1
      · obtain ⟨pre, hpre⟩ := h1
        have e1 : pre ++ [':', '0', '0'] ++ ['Z'] = (p :: c1 :: ds) ++ ['Z'] := by
          simpa using hpre
        have e2 := List.append_inj_left' e1 rfl
        have hmem : ':' ∈ p :: c1 :: ds := by
          rw [← e2]; simp
        simp only [List.mem_cons] at hmem
        rcases hmem with h | h | h
        · rcases hc.1 with h2 | h2 <;> rw [h2] at h <;> exact absurd h (by decide)
        · rw [← h] at hc; exact absurd hc.2 (by decide)
        · exact absurd (hdig _ h) (by decide)
    · rfl
  · rfl

/-! ## Round trip of the time codec -/

theorem daysSinceEpoch_range (y : Int) (h : 0 ≤ y ∧ y < 10000) :
    106751990353566 ≤ daysSinceEpoch y
      ∧ daysSinceEpoch y + yearLen y ≤ 106751994005991 := by
  have hl : yearLen y ≤ 366 := by unfold yearLen; split_ifs <;> omega
  by_cases h9 : y = 9999
  · subst h9
    decide
  · simp only [daysSinceEpoch, absoluteZeroYear]
    omega

/-- What a successful `ToEpoch` tells: the composed date parses to valid fields,
without fraction, and `epoch_ms` is a thousand times the Unix second of the date. -/
theorem ToEpoch_ok (s : Server) (r : Request) (ms : Int) (date : String)
    (h : s.ToEpoch r = ⟨StatusOK, .epoch ms date⟩) :
    ∃ (y m d hh mi ss : Nat), y < 10000 ∧ (1 ≤ m ∧ m ≤ 12)
      ∧ (1 ≤ d ∧ d ≤ daysIn m (y : Int)) ∧ hh < 24 ∧ mi < 60 ∧ ss < 60
      ∧ ms = dateUnix (y : Int) m d hh mi ss * 1000
      ∧ ∃ t0, Parse? .epoch date.toList = some t0 ∧ t0.UnixMilli = ms := by
  unfold Server.ToEpoch at h
  simp only at h
  split_ifs at h with hc
  · simp [StatusBadRequest, StatusOK] at h
  · cases hp : Parse? .epoch (r.Query.Get "year" ++ "-" ++ r.Query.Get "month" ++ "-"
        ++ r.Query.Get "day" ++ "T" ++ r.Query.Get "time" ++ ":00Z").toList with
    | none =>
      rw [hp] at h
      simp [StatusBadRequest, StatusOK] at h
    | some t =>
      rw [hp] at h
      simp only [Response.mk.injEq, Body.epoch.injEq, true_and] at h
      obtain ⟨hms, hdate⟩ := h
      obtain ⟨y, m, d, hh, mi, ss, v3, hy, hm, hd, q1, q2, q3, hsec, hnsec, hsuf, hz⟩ :=
        Parse_epoch_some _ t hp
      have hv : (r.Query.Get "year" ++ "-" ++ r.Query.Get "month" ++ "-"
          ++ r.Query.Get "day" ++ "T" ++ r.Query.Get "time" ++ ":00Z").toList
          = (r.Query.Get "year" ++ "-" ++ r.Query.Get "month" ++ "-"
          ++ r.Query.Get "day" ++ "T" ++ r.Query.Get "time").toList ++ [':', '0', '0', 'Z'] := by
        simp only [String.toList, String.data_append]
      rw [hv] at hsuf
      have hn0 := getfrac_zero v3 _ hsuf hz
      have hms2 : t.UnixMilli = dateUnix (y : Int) m d hh mi ss * 1000 := by
        unfold Time.UnixMilli
        rw [hsec, hnsec, hn0]
        simp
      refine ⟨y, m, d, hh, mi, ss, hy, hm, hd, q1, q2, q3, by rw [← hms, hms2], t, ?_, hms⟩
      rw [← hdate]
      exact hp

theorem dateUnix_div (y : Int) (m d hh mi ss : Nat) (h1 : hh < 24) (h2 : mi < 60)
    (h3 : ss < 60) :
    (dateUnix y m d hh mi ss + unixToAbsolute) / secondsPerDay
      = daysSinceEpoch y + dayOfYear y m d := by
  unfold dateUnix secondsPerDay
  generalize daysSinceEpoch y + dayOfYear y m d = dd
  omega

theorem clock_range (hh mi ss : Nat) (e k l : Int) (h1 : hh < 24) (h2 : mi < 60) (h3 : ss < 60)
    (r1 : 106751990353566 ≤ e) (r2 : e + l ≤ 106751994005991) (b1 : 0 ≤ k) (b2 : k < l) :
    -62167219200 ≤ (e + k) * 86400 + ((hh : Int) * 3600 + (mi : Int) * 60 + (ss : Int))
        - 9223372028715321600
      ∧ (e + k) * 86400 + ((hh : Int) * 3600 + (mi : Int) * 60 + (ss : Int))
        - 9223372028715321600 ≤ 253402300799 := by
  omega

theorem dateUnix_range (y m d hh mi ss : Nat) (hy : y < 10000) (hm : 1 ≤ m ∧ m ≤ 12)
    (hd : 1 ≤ d ∧ d ≤ daysIn m (y : Int)) (h1 : hh < 24) (h2 : mi < 60) (h3 : ss < 60) :
    (-62167219200 ≤ dateUnix (y : Int) m d hh mi ss
      ∧ dateUnix (y : Int) m d hh mi ss ≤ 253402300799)
      ∧ (absCivil (dateUnix (y : Int) m d hh mi ss + unixToAbsolute)).year = (y : Int) := by
  obtain ⟨b1, b2⟩ := dayOfYear_bounds (y : Int) m d hm hd
  obtain ⟨r1, r2⟩ := daysSinceEpoch_range (y : Int) ⟨Int.ofNat_nonneg y, by omega⟩
  refine ⟨clock_range hh mi ss _ _ _ h1 h2 h3 r1 r2 b1 b2, ?_⟩
  simp only [absCivil, dateUnix_div (y : Int) m d hh mi ss h1 h2 h3]
  rw [absYearDay_daysSinceEpoch (y : Int) _ b1 b2]

theorem ms_range (x ms : Int) (lo : -62167219200 ≤ x) (hi : x ≤ 253402300799)
    (hms : ms = x * 1000) : isInt64 ms := by
  unfold isInt64 minInt64 maxInt64
  omega

theorem sec_of_ms (x ms : Int) (hms : ms = x * 1000) : ms / 1000 = x := by
  omega

theorem abs_nonneg (x off : Int) (lo : -62167219200 ≤ x) (h : -86400 < off) :
    0 ≤ x + off + unixToAbsolute := by
  unfold unixToAbsolute
  omega

theorem ms_of_sec (x off ms sec nsec : Int) (hms : ms = x * 1000)
    (hs : sec = x + off + unixToAbsolute - unixToAbsolute - off) (hn : nsec = 0) :
    sec * 1000 + nsec / 1000000 = ms := by
  omega

/-- C5 (amended). When `ToEpoch` succeeds with `epoch_ms`, and the offset of the
host's local zone at that instant is a whole number of minutes, less than a day
in size, and either is zero (as on a host in UTC) or leaves the local year of
the instant within 0000..9999, then `ToReadable(epoch_ms)` succeeds and its
readable field, parsed again as RFC3339, is an instant whose epoch milliseconds
equal `epoch_ms`, the instant of the date string that `ToEpoch` composed. -/
theorem roundtrip_whole_minute_zone (s : Server) (loc : Location) (r1 r2 : Request)
    (ms : Int) (date text : String)
    (he : s.ToEpoch r1 = ⟨StatusOK, .epoch ms date⟩)
    (hq : r2.Query.Get "epoch_ms" = text) (ht : intLiteral? text.toList = some ms)
    (h60 : (UnixMilli loc ms).offset % 60 = 0)
    (hday : -86400 < (UnixMilli loc ms).offset ∧ (UnixMilli loc ms).offset < 86400)
    (hyear : (UnixMilli loc ms).offset = 0
      ∨ (0 ≤ (UnixMilli loc ms).civil.year ∧ (UnixMilli loc ms).civil.year ≤ 9999)) :
    ∃ (readable utc : String) (t t0 : Time),
      s.ToReadable loc r2 = ⟨StatusOK, .readable ms readable utc⟩
        ∧ Parse? .RFC3339 readable.toList = some t
        ∧ Parse? .epoch date.toList = some t0
        ∧ t.UnixMilli = ms ∧ t.UnixMilli = t0.UnixMilli := by
  obtain ⟨y, m, d, hh, mi, ss, hy, hm, hd, q1, q2, q3, hms, t0, hp0, ht0⟩ :=
    ToEpoch_ok s r1 ms date he
  obtain ⟨⟨lo, hi⟩, hyr⟩ := dateUnix_range y m d hh mi ss hy hm hd q1 q2 q3
  have hrange : isInt64 ms := ms_range _ ms lo hi hms
  obtain ⟨f1, f2, f3⟩ := UnixMilli_fields loc ms
  have hsec : (UnixMilli loc ms).sec = dateUnix (y : Int) m d hh mi ss := by
    rw [f1]; exact sec_of_ms _ ms hms
  have hne := intLiteral?_ne_empty text ms ht
  simp only [Time.offset, f3, hsec] at h60 hday hyear
  simp only [Time.civil, Time.offset, f3, hsec] at hyear
  have habs : 0 ≤ dateUnix (y : Int) m d hh mi ss
      + loc.lookup (dateUnix (y : Int) m d hh mi ss) + unixToAbsolute := by
    exact abs_nonneg _ _ lo hday.1
  have hy2 : 0 ≤ (absCivil (dateUnix (y : Int) m d hh mi ss
        + loc.lookup (dateUnix (y : Int) m d hh mi ss) + unixToAbsolute)).year
      ∧ (absCivil (dateUnix (y : Int) m d hh mi ss
        + loc.lookup (dateUnix (y : Int) m d hh mi ss) + unixToAbsolute)).year ≤ 9999 := by
    rcases hyear with h0 | h0
    · rw [h0, add_zero, hyr]
      exact ⟨Int.ofNat_nonneg y, by exact_mod_cast Nat.le_of_lt_succ hy⟩
    · exact h0
  obtain ⟨t, hpt, hts, htn⟩ := Parse_Format _ _ habs hy2 h60 hday
  have htms : t.UnixMilli = ms := ms_of_sec _ _ ms t.sec t.nsec hms hts htn
  refine ⟨(UnixMilli loc ms).FormatRFC3339, (UnixMilli loc ms).StringUTC, t, t0, ?_, ?_, hp0,
    htms, by rw [htms, ht0]⟩
  · unfold Server.ToReadable
    simp only [hq, hne, if_false, ParseInt, ht, hrange, if_true]
  · simp only [Time.FormatRFC3339, Time.civil, Time.offset, f3, hsec, String.toList]
    exact hpt

/-- C5, witness: `ToEpoch` for 2024-01-01 00:00 and `ToReadable` on a host in UTC. -/
theorem roundtrip_whole_minute_zone_witness :
    ∃ (readable utc : String) (t t0 : Time),
      (Server.mk exampleDb.toStore).ToReadable UTC ⟨"epoch_ms=1704067200000"⟩
          = ⟨StatusOK, .readable 1704067200000 readable utc⟩
        ∧ Parse? .RFC3339 readable.toList = some t
        ∧ Parse? .epoch "2024-01-01T00:00:00Z".toList = some t0
        ∧ t.UnixMilli = 1704067200000 ∧ t.UnixMilli = t0.UnixMilli :=
  roundtrip_whole_minute_zone (Server.mk exampleDb.toStore) UTC
    ⟨"year=2024&month=01&day=01&time=00:00"⟩ ⟨"epoch_ms=1704067200000"⟩ 1704067200000
    "2024-01-01T00:00:00Z" "1704067200000" (by decide) (by decide) (by decide) (by decide)
    (by decide) (by decide)

/-- C5, counterexample: on a host whose local zone is 4 h 56 min 2 s west of UTC
(the local mean time of New York, in force before 1883), `ToEpoch` for
1800-01-01 00:00 gives -5364662400000, `ToReadable` renders it as
`1799-12-31T19:03:58-04:56`, and that text parsed as RFC3339 is the instant
-5364662402000, two seconds earlier. -/
theorem roundtrip_subminute_zone_counterexample :
    (Server.mk exampleDb.toStore).ToEpoch ⟨"year=1800&month=01&day=01&time=00:00"⟩
        = ⟨200, .epoch (-5364662400000) "1800-01-01T00:00:00Z"⟩
      ∧ (Server.mk exampleDb.toStore).ToReadable (FixedZone (-17762))
          ⟨"epoch_ms=-5364662400000"⟩
        = ⟨200, .readable (-5364662400000) "1799-12-31T19:03:58-04:56"
            "1800-01-01 00:00:00 +0000 UTC"⟩
      ∧ (Parse? .RFC3339 "1799-12-31T19:03:58-04:56".toList).map Time.UnixMilli
        = some (-5364662402000) := by
  decide

/-! ## Tool facade -/

end LogMcp
